import Mathlib

/-!
# cpp_cli `Hash_Table` (src/cpp_cli/hash_table.h)

A shallow embedding of the open-addressing table of `hash_table.h`.

Conventions of the embedding:

* `size_t` is a natural number reduced modulo `2 ^ 64`, `short` an integer reduced to
  the signed 16-bit range, `int` an integer reduced to the signed 32-bit range.
* A `const char *` is `Option Key`: `none` is `nullptr`, `some bytes` points to the
  NUL-terminated string whose bytes before the terminator are `bytes`.
  `strcmp(a, b) == 0` is equality of the byte lists.
* A `T *` is `Option V` (`none` is `nullptr`).
* `std::vector` is a `List`; an access outside the vector and a `strcmp` on `nullptr`
  are undefined behaviour, reported as `Res.undefined`.
* Loops run on fuel; `Res.timeout` means the fuel was used up.
* A thrown `std::length_error` carries the table as it is at the throw, since the object
  outlives the exception.
* In `reserve`, `insert` and `rehash` the test against `load_factor * table_size` is read
  over the rationals (`0.9 = 9/10`) and the allocation of a vector is taken to succeed.
  The code computes the test in `double`: `load_exceeded_double` is that computation, it
  is the rational test on every `table_size = 2 ^ k - 1` with `k <= 52`
  (`load_exceeded_double_eq`) and departs from it first at `table_size = 2 ^ 53 - 1`.
  `create_double` is the constructor with the test in `double` and with an allocator
  that may refuse the vector.
-/

namespace CppCli

/-- Result of running a member function: normal return, a thrown exception with its
payload, undefined behaviour, or fuel exhaustion. -/
inductive Res (ε α : Type) where
  | ok (a : α) : Res ε α
  | throw (e : ε) : Res ε α
  | undefined : Res ε α
  | timeout : Res ε α
deriving DecidableEq, Repr

/-- The value `(size_t)(-1)`. -/
def SIZE_MAX : Nat := 2 ^ 64 - 1

/-- Conversion to `short`. -/
def to_short (x : Int) : Int := (x + 32768) % 65536 - 32768

/-- Conversion to `int`. -/
def to_int (x : Int) : Int := (x + 2147483648) % 4294967296 - 2147483648

/-- Conversion of a `short` to `size_t`. -/
def short_to_size_t (x : Int) : Nat := (x % 18446744073709551616).toNat

/-- Conversion of a `char` (signed, as on x86-64) to `size_t`. -/
def char_to_size_t (c : Nat) : Nat :=
  if c % 256 < 128 then c % 256 else c % 256 + (2 ^ 64 - 256)

/-- Bytes of a NUL-terminated string, terminator excluded. -/
abbrev Key := List Nat

/-- One slot: `struct Hash_Table_Registration`. -/
structure Hash_Table_Registration (V : Type) where
  key : Option Key
  value : Option V
  probe_dist : Int
deriving DecidableEq, Repr

/-- The default-constructed slot: `key(nullptr), value(nullptr)`, `probe_dist = 0`. -/
def Hash_Table_Registration.empty (V : Type) : Hash_Table_Registration V :=
  { key := none, value := none, probe_dist := 0 }

/-- The data members of `class Hash_Table`. -/
structure Hash_Table (V : Type) where
  registry_list : List (Hash_Table_Registration V)
  num_elements : Nat
  table_size : Nat
deriving DecidableEq, Repr

/-- The constant `hash_multiple`. -/
def hash_multiple : Nat := 31

/-- The test `n > load_factor * table_size` with `load_factor = 0.9`, read over the
rationals. The code evaluates it in `double` (`load_exceeded_double`); the two readings
agree on every `table_size = 2 ^ k - 1` with `k <= 52`. -/
def load_exceeded (n table_size : Nat) : Bool := decide (9 * table_size < 10 * n)

/-- The number of low bits of `x` that do not fit the 53-bit significand of a `double`;
the fuel covers every `x` below `2 ^ 117`. -/
def dropped_bits : Nat → Nat → Nat
  | 0, _ => 0
  | fuel + 1, x => if x < 2 ^ 53 then 0 else dropped_bits fuel (x / 2) + 1

/-- The conversion of a `size_t` to `double`, and the rounding of a product of doubles
scaled to an integer: `x` rounded to 53 significant bits, to nearest, ties to even. -/
def to_double (x : Nat) : Nat :=
  let e := dropped_bits 64 x
  let q := x / 2 ^ e
  let r := x % 2 ^ e
  if 2 * r < 2 ^ e ∨ (2 * r = 2 ^ e ∧ q % 2 = 0) then q * 2 ^ e else (q + 1) * 2 ^ e

/-- The constant `load_factor = 0.9` as a `double`: `8106479329266893 / 2 ^ 53`. -/
def load_factor_mantissa : Nat := 8106479329266893

/-- The test `n > load_factor * table_size` as the code computes it: both `size_t`
operands are converted to `double`, the product is rounded to a `double`, and the
comparison is exact. Both sides are scaled by `2 ^ 53`. -/
def load_exceeded_double (n table_size : Nat) : Bool :=
  decide (to_double (load_factor_mantissa * to_double table_size) < to_double n * 2 ^ 53)

/-- The two statements `table_size <<= 1; table_size |= 1;`. -/
def grow (table_size : Nat) : Nat := ((table_size <<< 1) % 2 ^ 64) ||| 1

/-- One round of the hashing loop: `hash += c; hash *= hash_multiple;`. -/
def hash_step (hash c : Nat) : Nat :=
  ((hash + char_to_size_t c) % 2 ^ 64 * hash_multiple) % 2 ^ 64

/-- Member function `Hash_Table::hash_element`. -/
def hash_element (table_size : Nat) (str : Key) : Nat :=
  match str with
  | [] => SIZE_MAX
  | _ :: _ => (str.foldl hash_step 7) &&& table_size

/-- The `while` loop of `find_element_beyond_tombstones`. -/
def find_loop {ε V : Type} (reg : List (Hash_Table_Registration V)) (table_size : Nat)
    (str : Key) : Nat → Nat → Res ε Nat
  | 0, _ => .timeout
  | fuel + 1, index =>
    match reg[index]? with
    | none => .undefined
    | some r =>
      match r.key with
      | none => .ok index
      | some k =>
        if k = str then .ok index
        else find_loop reg table_size str fuel (((index + 1) % 2 ^ 64) &&& table_size)

/-- Member function `Hash_Table::find_element_beyond_tombstones`. -/
def find_element_beyond_tombstones {ε V : Type} (fuel : Nat) (t : Hash_Table V)
    (str : Key) (index : Nat) : Res ε Nat :=
  find_loop t.registry_list t.table_size str fuel (index &&& t.table_size)

/-- The `while` loop of `reserve`. -/
def reserve_loop (size : Nat) : Nat → Nat → Option Nat
  | 0, _ => none
  | fuel + 1, table_size =>
    if table_size < SIZE_MAX ∧ load_exceeded size table_size = true then
      reserve_loop size fuel (grow table_size)
    else some table_size

/-- The `while` loop of `reserve` with its test computed in `double`. -/
def reserve_loop_double (size : Nat) : Nat → Nat → Option Nat
  | 0, _ => none
  | fuel + 1, table_size =>
    if table_size < SIZE_MAX ∧ load_exceeded_double size table_size = true then
      reserve_loop_double size fuel (grow table_size)
    else some table_size

/-- Member function `Hash_Table::reserve`. The construction of the vector on line 70 is
taken to succeed: the `std::length_error` and `std::bad_alloc` of `std::vector` are left
out here (`create_double` has them). -/
def reserve {V : Type} (fuel : Nat) (t : Hash_Table V) (size : Nat) :
    Res (Hash_Table V) (Hash_Table V) :=
  match reserve_loop size fuel t.table_size with
  | none => .timeout
  | some ts =>
    if ts < SIZE_MAX then
      .ok { t with table_size := ts,
                   registry_list := List.replicate (ts + 1) (Hash_Table_Registration.empty V) }
    else .throw { t with table_size := ts }

/-- The constructor `Hash_Table(size_t initial_size)`: the member initialisers
(`num_elements = 0`, `table_size = 1`, an empty vector) followed by `reserve`.
A constructor that throws leaves no object behind. -/
def create {V : Type} (fuel : Nat) (initial_size : Nat) : Res Unit (Hash_Table V) :=
  match reserve fuel { registry_list := [], num_elements := 0, table_size := 1 } initial_size with
  | .ok t => .ok t
  | .throw _ => .throw ()
  | .undefined => .undefined
  | .timeout => .timeout

/-- The constructor as the machine runs it: the loop of `reserve` with its test computed
in `double`, from the initial `table_size = 1`, and the vector of line 70 built by an
allocator that grants at most `max_slots` slots. A request beyond that makes the
constructor of `std::vector` throw (`std::length_error` above its `max_size()`,
`std::bad_alloc` when the memory is not there); line 72 throws `std::length_error` when
the loop has reached `(size_t)(-1)`. -/
def create_double {V : Type} (max_slots fuel initial_size : Nat) : Res Unit (Hash_Table V) :=
  match reserve_loop_double initial_size fuel 1 with
  | none => .timeout
  | some ts =>
    if ts < SIZE_MAX then
      if ts + 1 ≤ max_slots then
        .ok ⟨List.replicate (ts + 1) (Hash_Table_Registration.empty V), 0, ts⟩
      else .throw ()
    else .throw ()

/-- The local variables of the probing loop of `insert`. -/
structure Insert_State (V : Type) where
  reg : List (Hash_Table_Registration V)
  location : Nat
  probe_dist : Int
  str : Option Key
  val : Option V
deriving DecidableEq, Repr

/-- The `while` loop of `insert`. -/
def insert_loop {ε V : Type} (table_size : Nat) :
    Nat → Insert_State V → Res ε (Insert_State V)
  | 0, _ => .timeout
  | fuel + 1, s =>
    match s.reg[s.location]? with
    | none => .undefined
    | some r =>
      match r.key with
      | none => .ok s
      | some k =>
        match s.str with
        | none => .undefined
        | some str =>
          if k = str then .ok s
          else
            let location := (s.location + 1) % 2 ^ 64
            let probe_dist := to_short (s.probe_dist + 1)
            match s.reg[location]? with
            | none => .undefined
            | some cur_htr =>
              if probe_dist < cur_htr.probe_dist then
                insert_loop table_size fuel
                  { reg := s.reg.set location
                      { key := s.str, value := s.val, probe_dist := probe_dist },
                    location := location &&& table_size,
                    probe_dist := cur_htr.probe_dist,
                    str := cur_htr.key,
                    val := cur_htr.value }
              else
                insert_loop table_size fuel
                  { s with location := location &&& table_size, probe_dist := probe_dist }

/-- The `for` loop of `rehash` over the old vector, with the member function `insert`
it calls passed as `ins`. -/
def rehash_loop {V : Type}
    (ins : Hash_Table V → Key → Option V → Res (Hash_Table V) (Int × Hash_Table V)) :
    List (Hash_Table_Registration V) → Hash_Table V → Res (Hash_Table V) (Hash_Table V)
  | [], t => .ok t
  | r :: rest, t =>
    match r.key with
    | none => rehash_loop ins rest t
    | some k =>
      match ins t k r.value with
      | .ok p => rehash_loop ins rest p.2
      | .throw e => .throw e
      | .undefined => .undefined
      | .timeout => .timeout

/-- The body of `rehash`, with the member function `insert` passed as `ins`. -/
def rehash_with {V : Type}
    (ins : Hash_Table V → Key → Option V → Res (Hash_Table V) (Int × Hash_Table V))
    (t : Hash_Table V) : Res (Hash_Table V) (Hash_Table V) :=
  let ts := grow t.table_size
  if ts < SIZE_MAX then
    rehash_loop ins t.registry_list
      { t with table_size := ts,
               registry_list := List.replicate (ts + 1) (Hash_Table_Registration.empty V) }
  else .throw { t with table_size := ts }

/-- Member function `Hash_Table::insert`; the first component of the result is the returned
`int`. -/
def insert {V : Type} : Nat → Hash_Table V → Key → Option V →
    Res (Hash_Table V) (Int × Hash_Table V)
  | 0, _, _, _ => .timeout
  | fuel + 1, t, str, val =>
    let location := hash_element t.table_size str
    if location = SIZE_MAX then .ok (-1, t)
    else
      match (if load_exceeded t.num_elements t.table_size = true
             then rehash_with (insert fuel) t else .ok t) with
      | .throw e => .throw e
      | .undefined => .undefined
      | .timeout => .timeout
      | .ok t1 =>
        match insert_loop t1.table_size (fuel + 1)
            { reg := t1.registry_list, location := location, probe_dist := 0,
              str := some str, val := val } with
        | .throw e => .throw e
        | .undefined => .undefined
        | .timeout => .timeout
        | .ok s =>
          .ok (to_int s.location,
               { t1 with
                 registry_list := s.reg.set s.location
                   { key := s.str, value := s.val, probe_dist := s.probe_dist },
                 num_elements := (t1.num_elements + 1) % 2 ^ 64 })

/-- Member function `Hash_Table::rehash`. -/
def rehash {V : Type} (fuel : Nat) (t : Hash_Table V) : Res (Hash_Table V) (Hash_Table V) :=
  rehash_with (insert fuel) t

/-- The `for` loop of `remove`: `remaining` rounds are left before `probe_improvement`
reaches 10; the result is `optimal_element_to_swap`. -/
def remove_scan {ε V : Type} (reg : List (Hash_Table_Registration V)) (location : Nat) :
    Nat → Nat → Nat → Res ε Nat
  | 0, _, optimal_element_to_swap => .ok optimal_element_to_swap
  | remaining + 1, probe_improvement, optimal_element_to_swap =>
    match reg[(location + probe_improvement) % 2 ^ 64]? with
    | none => .undefined
    | some r =>
      match r.key with
      | none => .ok optimal_element_to_swap
      | some _ =>
        remove_scan reg location remaining (probe_improvement + 1)
          (if probe_improvement ≤ short_to_size_t r.probe_dist then probe_improvement
           else optimal_element_to_swap)

/-- The `while` loop of `remove`. -/
def remove_loop {ε V : Type} (table_size : Nat) :
    Nat → List (Hash_Table_Registration V) → Nat → Res ε (List (Hash_Table_Registration V))
  | 0, _, _ => .timeout
  | fuel + 1, reg, location =>
    match reg[location]? with
    | none => .undefined
    | some old =>
      match old.key with
      | none => .ok reg
      | some _ =>
        match (remove_scan reg location 9 1 0 : Res ε Nat) with
        | .throw e => .throw e
        | .undefined => .undefined
        | .timeout => .timeout
        | .ok optimal_element_to_swap =>
          match reg[(location + optimal_element_to_swap) % 2 ^ 64]? with
          | none => .undefined
          | some cur =>
            remove_loop table_size fuel
              (reg.set location
                { key := cur.key, value := cur.value,
                  probe_dist := to_short
                    (((short_to_size_t cur.probe_dist + 2 ^ 64 - optimal_element_to_swap)
                      % 2 ^ 64 : Nat) : Int) })
              (((location + optimal_element_to_swap) % 2 ^ 64) &&& table_size)

/-- Member function `Hash_Table::remove`. -/
def remove {V : Type} (fuel : Nat) (t : Hash_Table V) (str : Key) :
    Res (Hash_Table V) (Hash_Table V) :=
  let location := hash_element t.table_size str
  if location = SIZE_MAX then .ok t
  else
    match (find_element_beyond_tombstones fuel t str location : Res (Hash_Table V) Nat) with
    | .throw e => .throw e
    | .undefined => .undefined
    | .timeout => .timeout
    | .ok location =>
      match t.registry_list[location]? with
      | none => .undefined
      | some r =>
        match r.key with
        | none => .ok t
        | some _ =>
          match (remove_loop t.table_size fuel t.registry_list location :
              Res (Hash_Table V) (List (Hash_Table_Registration V))) with
          | .throw e => .throw e
          | .undefined => .undefined
          | .timeout => .timeout
          | .ok reg =>
            .ok { t with registry_list := reg,
                         num_elements := (t.num_elements + 2 ^ 64 - 1) % 2 ^ 64 }

/-- The bytes of `"Key not in table: "`. -/
def error_message_head : List Nat :=
  [75, 101, 121, 32, 110, 111, 116, 32, 105, 110, 32, 116, 97, 98, 108, 101, 58, 32]

/-- The string held by `error_message_buffer` once the copying loop is done: the 18
bytes of the head followed by at most 32 bytes of the key. -/
def error_message (str : Key) : List Nat := error_message_head ++ str.take 32

/-- Member function `Hash_Table::operator[]`; the exception payload is the message of the
`std::invalid_argument`. -/
def operator_index {V : Type} (fuel : Nat) (t : Hash_Table V) (str : Key) :
    Res (List Nat) (Option V) :=
  match (find_element_beyond_tombstones fuel t str (hash_element t.table_size str) :
      Res (List Nat) Nat) with
  | .throw e => .throw e
  | .undefined => .undefined
  | .timeout => .timeout
  | .ok expected_location =>
    match t.registry_list[expected_location]? with
    | none => .undefined
    | some r =>
      match r.key with
      | none => .undefined
      | some k => if k = str then .ok r.value else .throw (error_message str)

/-- Member function `Hash_Table::count`. -/
def count {V : Type} (fuel : Nat) (t : Hash_Table V) (str : Key) : Res Unit Int :=
  match (find_element_beyond_tombstones fuel t str (hash_element t.table_size str) :
      Res Unit Nat) with
  | .throw e => .throw e
  | .undefined => .undefined
  | .timeout => .timeout
  | .ok index =>
    match t.registry_list[index]? with
    | none => .undefined
    | some r => .ok (if r.key.isSome then 1 else 0)

/-- Member function `Hash_Table::clear`. -/
def clear {V : Type} (t : Hash_Table V) : Hash_Table V :=
  { t with registry_list := t.registry_list.map (fun r => { r with key := none }),
           num_elements := 0 }

/-- Member function `Hash_Table::clear_memory`. -/
def clear_memory {V : Type} (t : Hash_Table V) : Hash_Table V :=
  { t with registry_list := [Hash_Table_Registration.empty V],
           table_size := 1, num_elements := 0 }

/-- A sequence of `insert` calls, run one after the other; the returned indices are
dropped. -/
def insert_all {V : Type} (fuel : Nat) :
    Hash_Table V → List (Key × Option V) → Res (Hash_Table V) (Hash_Table V)
  | t, [] => .ok t
  | t, kv :: rest =>
    match insert fuel t kv.1 kv.2 with
    | .ok p => insert_all fuel p.2 rest
    | .throw e => .throw e
    | .undefined => .undefined
    | .timeout => .timeout

/-- The slots that hold the key `str`. -/
def slots_holding {V : Type} (t : Hash_Table V) (str : Key) :
    List (Hash_Table_Registration V) :=
  t.registry_list.filter (fun r => decide (r.key = some str))

/-- The `j`-th index visited by the probe of `find_element_beyond_tombstones` that
starts from `index`: `index &= table_size`, then `index++; index &= table_size` each
round. -/
def probe_index (table_size index j : Nat) : Nat :=
  (fun i => ((i + 1) % 2 ^ 64) &&& table_size)^[j] (index &&& table_size)

/-- The probe for `str` misses after `d` steps: the first `d` slots of its probe path
are occupied by other keys and the next one is empty. -/
def Probe_Miss {V : Type} (t : Hash_Table V) (str : Key) (d : Nat) : Prop :=
  (∀ j, j < d → ∃ r k, t.registry_list[probe_index t.table_size
      (hash_element t.table_size str) j]? = some r ∧ r.key = some k ∧ k ≠ str) ∧
  ∃ r, t.registry_list[probe_index t.table_size
      (hash_element t.table_size str) d]? = some r ∧ r.key = none

/-- The public mutating member functions with their arguments. -/
inductive Op (V : Type) where
  | reserve (size : Nat) : Op V
  | insert (str : Key) (val : Option V) : Op V
  | remove (str : Key) : Op V
  | clear : Op V
  | rehash : Op V
  | clear_memory : Op V
deriving DecidableEq, Repr

/-- One call of a member function on a table. -/
def run_op {V : Type} (fuel : Nat) (t : Hash_Table V) : Op V → Res (Hash_Table V) (Hash_Table V)
  | .reserve size => reserve fuel t size
  | .insert str val =>
    match insert fuel t str val with
    | .ok p => .ok p.2
    | .throw e => .throw e
    | .undefined => .undefined
    | .timeout => .timeout
  | .remove str => remove fuel t str
  | .clear => .ok (clear t)
  | .rehash => rehash fuel t
  | .clear_memory => .ok (clear_memory t)

/-- The table a call leaves behind: the one it returns with, or the one it has when a
`std::length_error` leaves the call. -/
def Res.state {σ : Type} : Res σ σ → Option σ
  | .ok s => some s
  | .throw s => some s
  | .undefined => none
  | .timeout => none

/-- Tables reachable from the constructor by calls of the public member functions. -/
inductive Reachable {V : Type} : Hash_Table V → Prop where
  | create (fuel initial_size : Nat) (t : Hash_Table V) :
      create fuel initial_size = .ok t → Reachable t
  | step (fuel : Nat) (op : Op V) (t t1 : Hash_Table V) :
      Reachable t → (run_op fuel t op).state = some t1 → Reachable t1

/-- The table sizes `2 ^ k - 1` that fit a `size_t`. -/
def Mask_Shape (table_size : Nat) : Prop := ∃ k, 1 ≤ k ∧ k ≤ 64 ∧ table_size = 2 ^ k - 1

/-- A property of the table a call leaves behind, on return or at a throw. -/
def Res.Leaves {σ α : Type} (P : σ → Prop) (f : α → σ) : Res σ α → Prop
  | .ok a => P (f a)
  | .throw s => P s
  | .undefined => True
  | .timeout => True

/-- What a call may do to `table_size`: keep its shape and not lower it. -/
def Grows {V : Type} (t t1 : Hash_Table V) : Prop :=
  Mask_Shape t1.table_size ∧ t.table_size ≤ t1.table_size

/-- The number of occupied slots: those whose key is not `nullptr`. -/
def occupied {V : Type} (reg : List (Hash_Table_Registration V)) : Nat :=
  reg.countP (fun r => r.key.isSome)

/-- Tables reachable from the constructor by calls of `insert`, `rehash`, `reserve` and
`clear` that return. -/
inductive Returning {V : Type} : Hash_Table V → Prop where
  | create (fuel initial_size : Nat) (t : Hash_Table V) :
      create fuel initial_size = .ok t → Returning t
  | insert (fuel : Nat) (str : Key) (val : Option V) (index : Int) (t t1 : Hash_Table V) :
      Returning t → insert fuel t str val = .ok (index, t1) → Returning t1
  | rehash (fuel : Nat) (t t1 : Hash_Table V) :
      Returning t → rehash fuel t = .ok t1 → Returning t1
  | reserve (fuel size : Nat) (t t1 : Hash_Table V) :
      Returning t → reserve fuel t size = .ok t1 → Returning t1
  | clear (t : Hash_Table V) : Returning t → Returning (clear t)

/-- The state invariant behind the termination of probes: `table_size` is `2 ^ k - 1`
and below `(size_t)(-1)`, the vector has `table_size + 1` slots, and the occupied slots
are at most `num_elements`, which is at most `table_size`. -/
def Sound {V : Type} (t : Hash_Table V) : Prop :=
  Mask_Shape t.table_size ∧ t.table_size < SIZE_MAX ∧
  t.registry_list.length = t.table_size + 1 ∧
  occupied t.registry_list ≤ t.num_elements ∧ t.num_elements ≤ t.table_size

/-- What a returning `insert` does to a sound table: the table stays sound, `table_size`
does not shrink, and `num_elements` grows by at most one more than `table_size` does. -/
def Insert_Post {V : Type} (t t1 : Hash_Table V) : Prop :=
  Sound t1 ∧ t.table_size ≤ t1.table_size ∧
  t1.num_elements + t.table_size ≤ t.num_elements + 1 + t1.table_size

/-- The keys the probing loop of `insert` holds: the occupied slots and the key it
carries. -/
def in_flight {V : Type} (s : Insert_State V) : Nat :=
  occupied s.reg + (if s.str.isSome then 1 else 0)

/-! ## The legacy table (src/cpp_command_line_parser/src/hash_table.cpp) -/

/-- The vector `list_of_primes` of the legacy `find_next_prime`. -/
def list_of_primes : List Nat := [3, 5, 7, 11, 13, 17, 19, 23, 29, 31, 37]

/-- The `for` loop of the legacy `find_next_prime` over the entries of `list_of_primes`
that are left; the state is `(next_prime, is_prime)`. -/
def find_next_prime_for : List Nat → Nat × Bool → Nat × Bool
  | [], s => s
  | p :: rest, s =>
    let remainder := s.1 % p
    find_next_prime_for rest
      ((s.1 + 2 * (if remainder = 0 then 1 else 0)) % 2 ^ 64, s.2 && decide (remainder ≠ 0))

/-- The `while (!is_prime)` loop of the legacy `find_next_prime`. -/
def find_next_prime_while : Nat → Nat → Option Nat
  | 0, _ => none
  | fuel + 1, next_prime =>
    match find_next_prime_for list_of_primes (next_prime, true) with
    | (next, true) => some next
    | (next, false) => find_next_prime_while fuel next

/-- The legacy `find_next_prime`; `none` means the fuel was used up. -/
def find_next_prime (fuel initial_guess : Nat) : Option Nat :=
  find_next_prime_while fuel ((initial_guess + (1 - initial_guess % 2)) % 2 ^ 64)

/-- The length of `registry_list` made by the legacy constructor
`Hash_Table(size_t initial_size)`: `find_next_prime(2 * initial_size)`. -/
def legacy_registry_length (fuel initial_size : Nat) : Option Nat :=
  find_next_prime fuel ((2 * initial_size) % 2 ^ 64)

/-! ## Supporting lemmas -/

/-- Growing `2 ^ k - 1` gives `2 ^ (k + 1) - 1` while this fits a `size_t`. -/
theorem grow_pow (k : Nat) (h1 : 1 ≤ k) (h2 : k ≤ 63) : grow (2 ^ k - 1) = 2 ^ (k + 1) - 1 := by
  interval_cases k <;> decide

/-- Growing the all-ones `size_t` wraps back to itself. -/
theorem grow_max : grow (2 ^ 64 - 1) = 2 ^ 64 - 1 := by decide

/-- A probe whose first `d` slots hold other keys and whose next slot is empty returns the
index of that empty slot. -/
theorem find_loop_miss {ε V : Type} (reg : List (Hash_Table_Registration V)) (table_size : Nat)
    (str : Key) (d : Nat) : ∀ (fuel index : Nat), d < fuel →
    (∀ j, j < d → ∃ r k, reg[(fun i => ((i + 1) % 2 ^ 64) &&& table_size)^[j] index]? = some r ∧
      r.key = some k ∧ k ≠ str) →
    (∃ r, reg[(fun i => ((i + 1) % 2 ^ 64) &&& table_size)^[d] index]? = some r ∧ r.key = none) →
    (find_loop reg table_size str fuel index : Res ε Nat) =
      .ok ((fun i => ((i + 1) % 2 ^ 64) &&& table_size)^[d] index) := by
  induction d with
  | zero =>
    intro fuel index hf _ hend
    obtain ⟨r, hr, hk⟩ := hend
    cases fuel with
    | zero => omega
    | succ n =>
      simp only [Function.iterate_zero, id_eq] at hr ⊢
      simp [find_loop, hr, hk]
  | succ d ih =>
    intro fuel index hf hocc hend
    cases fuel with
    | zero => omega
    | succ n =>
      obtain ⟨r, k, hr, hk, hne⟩ := hocc 0 (by omega)
      simp only [Function.iterate_zero, id_eq] at hr
      simp only [find_loop, hr, hk, hne, if_false, Function.iterate_succ_apply]
      apply ih n _ (by omega)
      · intro j hj
        have := hocc (j + 1) (by omega)
        simpa only [Function.iterate_succ_apply] using this
      · simpa only [Function.iterate_succ_apply] using hend

/-- Growth keeps the shape and never lowers the size. -/
theorem grow_shape (ts : Nat) (h : Mask_Shape ts) : Mask_Shape (grow ts) ∧ ts ≤ grow ts := by
  obtain ⟨k, h1, h64, rfl⟩ := h
  by_cases hk : k = 64
  · subst hk
    rw [grow_max]
    exact ⟨⟨64, by omega, le_refl _, rfl⟩, le_refl _⟩
  · rw [grow_pow k h1 (by omega)]
    refine ⟨⟨k + 1, by omega, by omega, rfl⟩, ?_⟩
    have : 2 ^ k ≤ 2 ^ (k + 1) := Nat.pow_le_pow_right (by norm_num) (by omega)
    omega

/-- A call that leaves `table_size` alone keeps the shape. -/
theorem Grows.refl {V : Type} (t : Hash_Table V) (h : Mask_Shape t.table_size) : Grows t t :=
  ⟨h, le_refl _⟩

/-- The loop of `reserve` keeps the shape of `table_size` and does not lower it. -/
theorem reserve_loop_shape (size : Nat) : ∀ (fuel ts ts1 : Nat), Mask_Shape ts →
    reserve_loop size fuel ts = some ts1 → Mask_Shape ts1 ∧ ts ≤ ts1 := by
  intro fuel
  induction fuel with
  | zero => intro ts ts1 _ h; simp [reserve_loop] at h
  | succ n ih =>
    intro ts ts1 hs h
    simp only [reserve_loop] at h
    split at h
    · obtain ⟨h1, h2⟩ := ih (grow ts) ts1 (grow_shape ts hs).1 h
      exact ⟨h1, le_trans (grow_shape ts hs).2 h2⟩
    · cases h
      exact ⟨hs, le_refl _⟩

/-- Function `reserve` keeps the shape of `table_size` and does not lower it, on return and
at a throw. -/
theorem reserve_leaves {V : Type} (fuel : Nat) (t : Hash_Table V) (size : Nat)
    (hs : Mask_Shape t.table_size) : (reserve fuel t size).Leaves (Grows t) id := by
  simp only [reserve]
  cases hl : reserve_loop size fuel t.table_size with
  | none => exact True.intro
  | some ts =>
    have := reserve_loop_shape size fuel t.table_size ts hs hl
    simp only
    split <;> exact this

/-- The re-insertion loop of `rehash` keeps the shape when `insert` does. -/
theorem rehash_loop_leaves {V : Type}
    (ins : Hash_Table V → Key → Option V → Res (Hash_Table V) (Int × Hash_Table V))
    (hins : ∀ t k v, Mask_Shape t.table_size → (ins t k v).Leaves (Grows t) Prod.snd) :
    ∀ (l : List (Hash_Table_Registration V)) (t0 t : Hash_Table V), Grows t0 t →
      (rehash_loop ins l t).Leaves (Grows t0) id := by
  intro l
  induction l with
  | nil => intro t0 t h; exact h
  | cons r rest ih =>
    intro t0 t h
    simp only [rehash_loop]
    cases hk : r.key with
    | none => exact ih t0 t h
    | some k =>
      have hi := hins t k r.value h.1
      simp only
      cases hr : ins t k r.value with
      | ok p =>
        rw [hr] at hi
        exact ih t0 p.2 ⟨hi.1, le_trans h.2 hi.2⟩
      | throw e =>
        rw [hr] at hi
        exact ⟨hi.1, le_trans h.2 hi.2⟩
      | undefined => exact True.intro
      | timeout => exact True.intro

/-- The body of `rehash` keeps the shape when `insert` does. -/
theorem rehash_with_leaves {V : Type}
    (ins : Hash_Table V → Key → Option V → Res (Hash_Table V) (Int × Hash_Table V))
    (hins : ∀ t k v, Mask_Shape t.table_size → (ins t k v).Leaves (Grows t) Prod.snd)
    (t : Hash_Table V) (hs : Mask_Shape t.table_size) :
    (rehash_with ins t).Leaves (Grows t) id := by
  have hg := grow_shape t.table_size hs
  simp only [rehash_with]
  split
  · exact rehash_loop_leaves ins hins _ t _ hg
  · exact hg

/-- The probing loop of `insert` throws nothing. -/
theorem insert_loop_no_throw {ε V : Type} (table_size : Nat) : ∀ (fuel : Nat)
    (s : Insert_State V) (e : ε), insert_loop table_size fuel s ≠ .throw e := by
  intro fuel
  induction fuel with
  | zero => intro s e h; simp [insert_loop] at h
  | succ n ih =>
    intro s e h
    simp only [insert_loop] at h
    repeat' split at h
    all_goals first | exact ih _ _ h | cases h

/-- The probing loop of `find_element_beyond_tombstones` throws nothing. -/
theorem find_loop_no_throw {ε V : Type} (reg : List (Hash_Table_Registration V))
    (table_size : Nat) (str : Key) : ∀ (fuel index : Nat) (e : ε),
    find_loop reg table_size str fuel index ≠ .throw e := by
  intro fuel
  induction fuel with
  | zero => intro index e h; simp [find_loop] at h
  | succ n ih =>
    intro index e h
    simp only [find_loop] at h
    repeat' split at h
    all_goals first | exact ih _ _ h | cases h

/-- The `for` loop of `remove` throws nothing. -/
theorem remove_scan_no_throw {ε V : Type} (reg : List (Hash_Table_Registration V))
    (location : Nat) : ∀ (remaining probe_improvement optimal : Nat) (e : ε),
    remove_scan reg location remaining probe_improvement optimal ≠ .throw e := by
  intro remaining
  induction remaining with
  | zero => intro p o e h; simp [remove_scan] at h
  | succ n ih =>
    intro p o e h
    simp only [remove_scan] at h
    repeat' split at h
    all_goals first | exact ih _ _ _ h | cases h

/-- The repair loop of `remove` throws nothing. -/
theorem remove_loop_no_throw {ε V : Type} (table_size : Nat) : ∀ (fuel : Nat)
    (reg : List (Hash_Table_Registration V)) (location : Nat) (e : ε),
    remove_loop table_size fuel reg location ≠ .throw e := by
  intro fuel
  induction fuel with
  | zero => intro reg location e h; simp [remove_loop] at h
  | succ n ih =>
    intro reg location e h
    simp only [remove_loop] at h
    repeat' split at h
    all_goals first
      | exact ih _ _ _ h
      | exact absurd (by assumption) (remove_scan_no_throw _ _ _ _ _ _)
      | cases h

/-- Function `insert` keeps the shape of `table_size` and does not lower it, on return and
at a throw. -/
theorem insert_leaves {V : Type} : ∀ (fuel : Nat) (t : Hash_Table V) (str : Key)
    (val : Option V), Mask_Shape t.table_size →
    (insert fuel t str val).Leaves (Grows t) Prod.snd := by
  intro fuel
  induction fuel with
  | zero => intro t str val _; exact True.intro
  | succ n ih =>
    intro t str val hs
    simp only [insert]
    split
    · exact Grows.refl t hs
    · have hpre : (if load_exceeded t.num_elements t.table_size = true
          then rehash_with (insert n) t else Res.ok t).Leaves (Grows t) id := by
        split
        · exact rehash_with_leaves (insert n) ih t hs
        · exact Grows.refl t hs
      revert hpre
      cases (if load_exceeded t.num_elements t.table_size = true
          then rehash_with (insert n) t else Res.ok t) with
      | throw e => exact fun h => h
      | undefined => exact fun h => h
      | timeout => exact fun h => h
      | ok t1 =>
        intro hpre
        simp only
        split
        · exact absurd (by assumption) (insert_loop_no_throw _ _ _ _)
        · exact True.intro
        · exact True.intro
        · exact hpre

/-- Function `remove` keeps the shape of `table_size` and does not lower it. -/
theorem remove_leaves {V : Type} (fuel : Nat) (t : Hash_Table V) (str : Key)
    (hs : Mask_Shape t.table_size) : (remove fuel t str).Leaves (Grows t) id := by
  simp only [remove]
  repeat' split
  all_goals first
    | exact Grows.refl t hs
    | exact True.intro
    | exact absurd (by assumption) (find_loop_no_throw _ _ _ _ _ _)
    | exact absurd (by assumption) (remove_loop_no_throw _ _ _ _ _)

/-- Every member function but `clear_memory` keeps the shape of `table_size` and does not
lower it. -/
theorem run_op_leaves {V : Type} (fuel : Nat) (t : Hash_Table V) (op : Op V)
    (hs : Mask_Shape t.table_size) (hop : op ≠ Op.clear_memory) :
    (run_op fuel t op).Leaves (Grows t) id := by
  cases op with
  | reserve size => exact reserve_leaves fuel t size hs
  | insert str val =>
    have := insert_leaves fuel t str val hs
    simp only [run_op]
    revert this
    cases insert fuel t str val <;> exact fun h => h
  | remove str => exact remove_leaves fuel t str hs
  | clear => exact Grows.refl t hs
  | rehash => exact rehash_with_leaves (insert fuel) (insert_leaves fuel) t hs
  | clear_memory => exact absurd rfl hop

/-- A property of the table a call leaves behind holds of the state it ends in. -/
theorem Res.Leaves.of_state {σ : Type} {P : σ → Prop} {r : Res σ σ} {s : σ}
    (h : r.Leaves P id) (hs : r.state = some s) : P s := by
  cases r with
  | ok a => simp only [Res.state, Option.some.injEq] at hs; subst hs; exact h
  | throw a => simp only [Res.state, Option.some.injEq] at hs; subst hs; exact h
  | undefined => simp [Res.state] at hs
  | timeout => simp [Res.state] at hs

/-- The constructor yields a table size of the shape `2 ^ k - 1`. -/
theorem create_shape {V : Type} (fuel initial_size : Nat) (t : Hash_Table V)
    (h : create fuel initial_size = .ok t) : Mask_Shape t.table_size := by
  have hl := reserve_leaves (V := V) fuel ⟨[], 0, 1⟩ initial_size ⟨1, le_refl _, by omega, rfl⟩
  unfold create at h
  split at h
  · next t1 heq =>
    rw [heq] at hl
    cases h
    exact hl.1
  all_goals cases h

/-- Every reachable table has a size of the shape `2 ^ k - 1` with `1 ≤ k ≤ 64`. -/
theorem reachable_shape {V : Type} (t : Hash_Table V) (h : Reachable t) :
    Mask_Shape t.table_size := by
  induction h with
  | create fuel initial_size t hc => exact create_shape fuel initial_size t hc
  | step fuel op t t1 _ hstep ih =>
    by_cases hop : op = Op.clear_memory
    · subst hop
      simp only [run_op, Res.state, Option.some.injEq] at hstep
      subst hstep
      exact ⟨1, le_refl _, by omega, rfl⟩
    · exact ((run_op_leaves fuel t op ih hop).of_state hstep).1

/-! ### Lookup of an absent key -/

/-- A probe that returns stops on a slot that is empty or holds the key it looks for. -/
theorem find_loop_result {ε V : Type} (reg : List (Hash_Table_Registration V))
    (table_size : Nat) (str : Key) : ∀ (fuel index out : Nat),
    (find_loop reg table_size str fuel index : Res ε Nat) = .ok out →
    ∃ r, reg[out]? = some r ∧ (r.key = none ∨ r.key = some str) := by
  intro fuel
  induction fuel with
  | zero => intro index out h; simp [find_loop] at h
  | succ n ih =>
    intro index out h
    rw [find_loop] at h
    cases h1 : reg[index]? with
    | none => simp only [h1] at h; cases h
    | some r =>
      simp only [h1] at h
      cases h2 : r.key with
      | none =>
        simp only [h2, Res.ok.injEq] at h
        subst h
        exact ⟨r, h1, Or.inl h2⟩
      | some k =>
        simp only [h2] at h
        by_cases h3 : k = str
        · simp only [h3, if_true, Res.ok.injEq] at h
          subst h
          exact ⟨r, h1, Or.inr (by rw [h2, h3])⟩
        · simp only [h3, if_false] at h
          exact ih _ _ h

/-- No call of `operator[]` throws `std::invalid_argument`: the probe stops on an empty
slot, where `strcmp` gets `nullptr`, or on the key itself. -/
theorem operator_index_never_throws {V : Type} (fuel : Nat) (t : Hash_Table V) (str : Key)
    (msg : List Nat) : operator_index fuel t str ≠ .throw msg := by
  intro h
  unfold operator_index at h
  cases hf : (find_element_beyond_tombstones fuel t str (hash_element t.table_size str) :
      Res (List Nat) Nat) with
  | throw e => exact find_loop_no_throw _ _ _ _ _ _ hf
  | undefined => simp only [hf] at h; cases h
  | timeout => simp only [hf] at h; cases h
  | ok index =>
    obtain ⟨r, hr, hk⟩ := find_loop_result _ _ _ _ _ _ hf
    simp only [hf, hr] at h
    rcases hk with hk | hk
    · simp only [hk] at h; cases h
    · simp only [hk, if_true] at h; cases h

/-- On every table, a lookup whose probe path runs over `d` slots held by other keys and
then reaches an empty slot hands `nullptr` to `strcmp`. -/
theorem operator_index_miss_undefined {V : Type} (fuel : Nat) (t : Hash_Table V) (str : Key)
    (d : Nat) (hd : d < fuel) (hmiss : Probe_Miss t str d) :
    operator_index fuel t str = .undefined := by
  obtain ⟨hocc, hend⟩ := hmiss
  have hfind := @find_loop_miss (List Nat) V t.registry_list t.table_size str d fuel
    (hash_element t.table_size str &&& t.table_size) hd hocc hend
  obtain ⟨r, hr, hk⟩ := hend
  simp only [probe_index] at hr
  simp only [operator_index, find_element_beyond_tombstones, hfind]
  rw [hr]
  simp only [hk]

/-- The message built in `error_message_buffer` has the 18 bytes of its head and at most 32
bytes of the key, so at most 50 bytes. -/
theorem error_message_length (str : Key) :
    (error_message str).length = 18 + min 32 str.length ∧ (error_message str).length ≤ 50 := by
  have h : (error_message str).length = 18 + min 32 str.length := by
    simp [error_message, error_message_head]
    omega
  exact ⟨h, by omega⟩

/-! ### Independence of the fuel -/

/-- A probe that ends within its fuel gives the same result with one more unit of fuel. -/
theorem find_loop_fuel_succ {ε V : Type} (reg : List (Hash_Table_Registration V))
    (table_size : Nat) (str : Key) : ∀ (fuel index : Nat),
    (find_loop reg table_size str fuel index : Res ε Nat) ≠ .timeout →
    (find_loop reg table_size str (fuel + 1) index : Res ε Nat) =
      find_loop reg table_size str fuel index := by
  intro fuel
  induction fuel with
  | zero => intro index h; exact absurd rfl h
  | succ n ih =>
    intro index h
    rw [find_loop] at h
    conv_lhs => rw [find_loop]
    conv_rhs => rw [find_loop]
    repeat' split
    all_goals first
      | rfl
      | (simp only [*, if_true, if_false] at h; exact ih _ h)

/-- The probing loop of `insert`, when it ends within its fuel, gives the same result with
one more unit of fuel. -/
theorem insert_loop_fuel_succ {ε V : Type} (table_size : Nat) : ∀ (fuel : Nat)
    (s : Insert_State V), (insert_loop table_size fuel s : Res ε (Insert_State V)) ≠ .timeout →
    (insert_loop table_size (fuel + 1) s : Res ε (Insert_State V)) =
      insert_loop table_size fuel s := by
  intro fuel
  induction fuel with
  | zero => intro s h; exact absurd rfl h
  | succ n ih =>
    intro s h
    rw [insert_loop] at h
    conv_lhs => rw [insert_loop]
    conv_rhs => rw [insert_loop]
    cases h1 : s.reg[s.location]? with
    | none => rfl
    | some r =>
      simp only [h1] at h ⊢
      cases h2 : r.key with
      | none => rfl
      | some k =>
        simp only [h2] at h ⊢
        cases h3 : s.str with
        | none => rfl
        | some str =>
          simp only [h3] at h ⊢
          by_cases h4 : k = str
          · simp only [h4, if_true]
          · simp only [h4, if_false] at h ⊢
            cases h5 : s.reg[(s.location + 1) % 2 ^ 64]? with
            | none => rfl
            | some cur =>
              simp only [h5] at h ⊢
              by_cases h6 : to_short (s.probe_dist + 1) < cur.probe_dist
              · simp only [h6, if_true] at h ⊢
                exact ih _ h
              · simp only [h6, if_false] at h ⊢
                exact ih _ h

/-- The repair loop of `remove`, when it ends within its fuel, gives the same result with
one more unit of fuel. -/
theorem remove_loop_fuel_succ {ε V : Type} (table_size : Nat) : ∀ (fuel : Nat)
    (reg : List (Hash_Table_Registration V)) (location : Nat),
    (remove_loop table_size fuel reg location : Res ε _) ≠ .timeout →
    (remove_loop table_size (fuel + 1) reg location : Res ε _) =
      remove_loop table_size fuel reg location := by
  intro fuel
  induction fuel with
  | zero => intro reg location h; exact absurd rfl h
  | succ n ih =>
    intro reg location h
    rw [remove_loop] at h
    conv_lhs => rw [remove_loop]
    conv_rhs => rw [remove_loop]
    repeat' split
    all_goals first
      | rfl
      | (simp only [*, if_true, if_false] at h; exact ih _ _ h)

/-- The loop of `reserve`, when it ends within its fuel, gives the same result with one more
unit of fuel. -/
theorem reserve_loop_fuel_succ (size : Nat) : ∀ (fuel table_size : Nat),
    reserve_loop size fuel table_size ≠ none →
    reserve_loop size (fuel + 1) table_size = reserve_loop size fuel table_size := by
  intro fuel
  induction fuel with
  | zero => intro ts h; exact absurd rfl h
  | succ n ih =>
    intro ts h
    rw [reserve_loop] at h
    conv_lhs => rw [reserve_loop]
    conv_rhs => rw [reserve_loop]
    split
    · next hc => rw [if_pos hc] at h; exact ih _ h
    · rfl

/-- The re-insertion loop of `rehash` does not depend on the fuel of `insert` once that is
enough. -/
theorem rehash_loop_fuel {V : Type}
    (ins ins1 : Hash_Table V → Key → Option V → Res (Hash_Table V) (Int × Hash_Table V))
    (hins : ∀ t k v, ins t k v ≠ .timeout → ins1 t k v = ins t k v) :
    ∀ (l : List (Hash_Table_Registration V)) (t : Hash_Table V),
      rehash_loop ins l t ≠ .timeout → rehash_loop ins1 l t = rehash_loop ins l t := by
  intro l
  induction l with
  | nil => intro t _; rfl
  | cons r rest ih =>
    intro t h
    rw [rehash_loop] at h
    conv_lhs => rw [rehash_loop]
    conv_rhs => rw [rehash_loop]
    cases hk : r.key with
    | none =>
      simp only [hk] at h ⊢
      exact ih t h
    | some k =>
      simp only [hk] at h ⊢
      have hne : ins t k r.value ≠ .timeout := by
        intro hc
        rw [hc] at h
        exact h rfl
      rw [hins t k r.value hne]
      cases hi : ins t k r.value with
      | ok p =>
        rw [hi] at h
        exact ih p.2 h
      | throw e => rfl
      | undefined => rfl
      | timeout => rfl

/-- The body of `rehash` does not depend on the fuel of `insert` once that is enough. -/
theorem rehash_with_fuel {V : Type}
    (ins ins1 : Hash_Table V → Key → Option V → Res (Hash_Table V) (Int × Hash_Table V))
    (hins : ∀ t k v, ins t k v ≠ .timeout → ins1 t k v = ins t k v)
    (t : Hash_Table V) (h : rehash_with ins t ≠ .timeout) :
    rehash_with ins1 t = rehash_with ins t := by
  unfold rehash_with at h ⊢
  simp only at h ⊢
  split
  · next hc =>
    rw [if_pos hc] at h
    exact rehash_loop_fuel ins ins1 hins _ _ h
  · rfl

/-- Function `insert`, when it ends within its fuel, gives the same result with one more
unit of fuel. -/
theorem insert_fuel_succ {V : Type} : ∀ (fuel : Nat) (t : Hash_Table V) (str : Key)
    (val : Option V), insert fuel t str val ≠ .timeout →
    insert (fuel + 1) t str val = insert fuel t str val := by
  intro fuel
  induction fuel with
  | zero => intro t str val h; exact absurd rfl h
  | succ n ih =>
    intro t str val h
    rw [insert] at h
    conv_lhs => rw [insert]
    conv_rhs => rw [insert]
    split
    · rfl
    · next hloc =>
      rw [if_neg hloc] at h
      have hpre : (if load_exceeded t.num_elements t.table_size = true
            then rehash_with (insert (n + 1)) t else Res.ok t) =
          (if load_exceeded t.num_elements t.table_size = true
            then rehash_with (insert n) t else Res.ok t) := by
        split
        · next hl =>
          rw [if_pos hl] at h
          apply rehash_with_fuel (insert n) (insert (n + 1)) ih
          intro hc
          rw [hc] at h
          exact h rfl
        · rfl
      rw [hpre]
      cases hr : (if load_exceeded t.num_elements t.table_size = true
            then rehash_with (insert n) t else Res.ok t) with
      | throw e => rfl
      | undefined => rfl
      | timeout => rfl
      | ok t1 =>
        rw [hr] at h
        simp only at h ⊢
        rw [insert_loop_fuel_succ]
        intro hc
        rw [hc] at h
        exact h rfl


/-- A result that one more unit of fuel does not change is not changed by any amount of
fuel. -/
theorem fuel_add {α : Type} (f : Nat → α) (bad : α)
    (hstep : ∀ n, f n ≠ bad → f (n + 1) = f n) (n m : Nat) (h : f n ≠ bad) :
    f (n + m) = f n := by
  induction m with
  | zero => rfl
  | succ m ih =>
    have h1 : f (n + m) ≠ bad := by rw [ih]; exact h
    rw [← Nat.add_assoc, hstep (n + m) h1, ih]

/-- Function `insert` gives the same result with any larger fuel once it ends. -/
theorem insert_fuel_add {V : Type} (fuel more : Nat) (t : Hash_Table V) (str : Key)
    (val : Option V) (h : insert fuel t str val ≠ .timeout) :
    insert (fuel + more) t str val = insert fuel t str val :=
  fuel_add (fun n => insert n t str val) .timeout
    (fun n hn => insert_fuel_succ n t str val hn) fuel more h

/-- A sequence of `insert` calls that ends within its fuel gives the same result with one
more unit of fuel. -/
theorem insert_all_fuel_succ {V : Type} (fuel : Nat) : ∀ (l : List (Key × Option V))
    (t : Hash_Table V), insert_all fuel t l ≠ .timeout →
    insert_all (fuel + 1) t l = insert_all fuel t l := by
  intro l
  induction l with
  | nil => intro t _; rfl
  | cons kv rest ih =>
    intro t h
    rw [insert_all] at h
    conv_lhs => rw [insert_all]
    conv_rhs => rw [insert_all]
    have hne : insert fuel t kv.1 kv.2 ≠ .timeout := by
      intro hc
      rw [hc] at h
      exact h rfl
    rw [insert_fuel_succ fuel t kv.1 kv.2 hne]
    cases hi : insert fuel t kv.1 kv.2 with
    | ok p =>
      rw [hi] at h
      exact ih p.2 h
    | throw e => rfl
    | undefined => rfl
    | timeout => rfl

/-- A sequence of `insert` calls gives the same result with any larger fuel once it ends. -/
theorem insert_all_fuel_add {V : Type} (fuel more : Nat) (t : Hash_Table V)
    (l : List (Key × Option V)) (h : insert_all fuel t l ≠ .timeout) :
    insert_all (fuel + more) t l = insert_all fuel t l :=
  fuel_add (fun n => insert_all n t l) .timeout
    (fun n hn => insert_all_fuel_succ n l t hn) fuel more h

/-- Function `find_element_beyond_tombstones` gives the same result with any larger fuel
once it ends. -/
theorem find_element_fuel_add {ε V : Type} (fuel more : Nat) (t : Hash_Table V) (str : Key)
    (index : Nat)
    (h : (find_element_beyond_tombstones fuel t str index : Res ε Nat) ≠ .timeout) :
    (find_element_beyond_tombstones (fuel + more) t str index : Res ε Nat) =
      find_element_beyond_tombstones fuel t str index :=
  fuel_add (fun n => (find_element_beyond_tombstones n t str index : Res ε Nat)) .timeout
    (fun n hn => find_loop_fuel_succ _ _ _ n _ hn) fuel more h

/-- Member function `operator[]` gives the same result with any larger fuel once it ends. -/
theorem operator_index_fuel_add {V : Type} (fuel more : Nat) (t : Hash_Table V) (str : Key)
    (h : operator_index fuel t str ≠ .timeout) :
    operator_index (fuel + more) t str = operator_index fuel t str := by
  have hne : (find_element_beyond_tombstones fuel t str (hash_element t.table_size str) :
      Res (List Nat) Nat) ≠ .timeout := by
    intro hc
    simp only [operator_index, hc] at h
    exact h rfl
  simp only [operator_index, find_element_fuel_add fuel more t str _ hne]

/-- Function `count` gives the same result with any larger fuel once it ends. -/
theorem count_fuel_add {V : Type} (fuel more : Nat) (t : Hash_Table V) (str : Key)
    (h : count fuel t str ≠ .timeout) :
    count (fuel + more) t str = count fuel t str := by
  have hne : (find_element_beyond_tombstones fuel t str (hash_element t.table_size str) :
      Res Unit Nat) ≠ .timeout := by
    intro hc
    simp only [count, hc] at h
    exact h rfl
  simp only [count, find_element_fuel_add fuel more t str _ hne]

/-- Function `reserve` gives the same result with any larger fuel once it ends. -/
theorem reserve_fuel_add {V : Type} (fuel more : Nat) (t : Hash_Table V) (size : Nat)
    (h : reserve fuel t size ≠ .timeout) :
    reserve (fuel + more) t size = reserve fuel t size := by
  have hne : reserve_loop size fuel t.table_size ≠ none := by
    intro hc
    simp only [reserve, hc] at h
    exact h rfl
  have := fuel_add (fun n => reserve_loop size n t.table_size) none
    (fun n hn => reserve_loop_fuel_succ size n _ hn) fuel more hne
  simp only at this
  simp only [reserve, this]

/-- The constructor gives the same result with any larger fuel once it ends. -/
theorem create_fuel_add {V : Type} (fuel more initial_size : Nat)
    (h : (create fuel initial_size : Res Unit (Hash_Table V)) ≠ .timeout) :
    (create (fuel + more) initial_size : Res Unit (Hash_Table V)) = create fuel initial_size := by
  have hne : reserve fuel (⟨[], 0, 1⟩ : Hash_Table V) initial_size ≠ .timeout := by
    intro hc
    simp only [create, hc] at h
    exact h rfl
  simp only [create, reserve_fuel_add fuel more _ initial_size hne]

/-! ### The repair loop of `remove` -/

/-- Masking an index that is within the table leaves it as it is. -/
theorem and_mask_of_le (i ts : Nat) (hs : Mask_Shape ts) (hi : i ≤ ts) : i &&& ts = i := by
  obtain ⟨k, -, -, rfl⟩ := hs
  rw [Nat.and_pow_two_sub_one_eq_mod]
  apply Nat.mod_eq_of_lt
  have : 0 < 2 ^ k := Nat.pos_pow_of_pos k (by norm_num)
  omega

/-- A table size of the shape `2 ^ k - 1` fits a `size_t`. -/
theorem mask_lt_pow (ts : Nat) (hs : Mask_Shape ts) : ts < 2 ^ 64 := by
  obtain ⟨k, -, hk, rfl⟩ := hs
  have h1 : 2 ^ k ≤ 2 ^ 64 := Nat.pow_le_pow_right (by norm_num) hk
  have : 0 < 2 ^ k := Nat.pos_pow_of_pos k (by norm_num)
  omega

/-- A non-empty key is not hashed to `(size_t)(-1)` unless `table_size` is all ones. -/
theorem hash_element_ne_size_max (table_size : Nat) (str : Key) (hstr : str ≠ [])
    (hts : table_size < SIZE_MAX) : hash_element table_size str ≠ SIZE_MAX := by
  cases str with
  | nil => exact absurd rfl hstr
  | cons c rest =>
    simp only [hash_element]
    have := @Nat.and_le_right (List.foldl hash_step 7 (c :: rest)) table_size
    omega

/-- The `for` loop of `remove` returns the `optimal_element_to_swap` it started with or the
offset of an occupied slot. -/
theorem remove_scan_result {ε V : Type} (reg : List (Hash_Table_Registration V))
    (location : Nat) : ∀ (remaining probe_improvement optimal o : Nat),
    (remove_scan reg location remaining probe_improvement optimal : Res ε Nat) = .ok o →
    o = optimal ∨ ∃ r k, reg[(location + o) % 2 ^ 64]? = some r ∧ r.key = some k := by
  intro remaining
  induction remaining with
  | zero =>
    intro p opt o h
    simp only [remove_scan, Res.ok.injEq] at h
    exact Or.inl h.symm
  | succ n ih =>
    intro p opt o h
    rw [remove_scan] at h
    cases h1 : reg[(location + p) % 2 ^ 64]? with
    | none => simp only [h1] at h; cases h
    | some r =>
      simp only [h1] at h
      cases h2 : r.key with
      | none =>
        simp only [h2, Res.ok.injEq] at h
        exact Or.inl h.symm
      | some k =>
        simp only [h2] at h
        rcases ih _ _ _ h with h3 | h3
        · by_cases hc : p ≤ short_to_size_t r.probe_dist
          · rw [if_pos hc] at h3
            subst h3
            exact Or.inr ⟨r, k, h1, h2⟩
          · rw [if_neg hc] at h3
            exact Or.inl h3
        · exact Or.inr h3

/-- The repair loop of `remove`, started on an occupied slot of a table with `table_size +
1` slots, does not end: every round leaves the slot it moves to occupied. -/
theorem remove_loop_never_returns {ε V : Type} (table_size : Nat) (hs : Mask_Shape table_size) :
    ∀ (fuel : Nat) (reg : List (Hash_Table_Registration V)) (location : Nat),
    reg.length = table_size + 1 →
    (∃ r k, reg[location]? = some r ∧ r.key = some k) →
    ∀ out, (remove_loop table_size fuel reg location : Res ε _) ≠ .ok out := by
  intro fuel
  induction fuel with
  | zero => intro reg location _ _ out h; simp [remove_loop] at h
  | succ n ih =>
    intro reg location hlen hocc out h
    obtain ⟨old, k, hold, hk⟩ := hocc
    rw [remove_loop] at h
    simp only [hold, hk] at h
    cases hscan : (remove_scan reg location 9 1 0 : Res ε Nat) with
    | throw e => simp only [hscan] at h; cases h
    | undefined => simp only [hscan] at h; cases h
    | timeout => simp only [hscan] at h; cases h
    | ok optimal =>
      simp only [hscan] at h
      cases hcur : reg[(location + optimal) % 2 ^ 64]? with
      | none => simp only [hcur] at h; cases h
      | some cur =>
        simp only [hcur] at h
        have hidx : (location + optimal) % 2 ^ 64 < reg.length :=
          (List.getElem?_eq_some.1 hcur).1
        have hloc : location < reg.length := (List.getElem?_eq_some.1 hold).1
        have hmask : (location + optimal) % 2 ^ 64 &&& table_size =
            (location + optimal) % 2 ^ 64 :=
          and_mask_of_le _ _ hs (by omega)
        rw [hmask] at h
        refine ih _ _ (by rw [List.length_set]; exact hlen) ?_ out h
        by_cases heq : (location + optimal) % 2 ^ 64 = location
        · rw [heq] at hcur ⊢
          rw [hold] at hcur
          cases hcur
          exact ⟨_, k, List.getElem?_set_self hloc, hk⟩
        · rw [List.getElem?_set_ne (Ne.symm heq)]
          rcases remove_scan_result reg location 9 1 0 optimal hscan with h0 | ⟨r, k1, hr, hk1⟩
          · exfalso
            subst h0
            apply heq
            have := mask_lt_pow table_size hs
            exact Nat.mod_eq_of_lt (by omega)
          · rw [hcur] at hr
            cases hr
            exact ⟨cur, k1, hcur, hk1⟩

/-- On a table with `table_size + 1` slots, a `remove` whose probe finds an occupied slot
does not return. -/
theorem remove_hit_never_returns {V : Type} (fuel : Nat) (t : Hash_Table V) (str : Key)
    (hstr : str ≠ []) (hts : t.table_size < SIZE_MAX)
    (hs : Mask_Shape t.table_size) (hlen : t.registry_list.length = t.table_size + 1)
    (index : Nat) (r : Hash_Table_Registration V) (k : Key)
    (hfind : (find_element_beyond_tombstones fuel t str (hash_element t.table_size str) :
      Res (Hash_Table V) Nat) = .ok index)
    (hr : t.registry_list[index]? = some r) (hk : r.key = some k) :
    ∀ t1, remove fuel t str ≠ .ok t1 := by
  intro t1 h
  have hne := hash_element_ne_size_max t.table_size str hstr hts
  simp only [remove, if_neg hne, hfind, hr, hk] at h
  cases hl : (remove_loop t.table_size fuel t.registry_list index :
      Res (Hash_Table V) (List (Hash_Table_Registration V))) with
  | ok reg => exact remove_loop_never_returns t.table_size hs fuel _ _ hlen ⟨r, k, hr, hk⟩ reg hl
  | throw e => simp only [hl] at h; cases h
  | undefined => simp only [hl] at h; cases h
  | timeout => simp only [hl] at h; cases h

/-- The repair loop of `remove`, started on slot 0 of the table that holds `"a"` alone,
never ends: no candidate qualifies, slot 0 is copied onto itself and the loop is back
where it started. -/
theorem remove_loop_spins (fuel : Nat) :
    (remove_loop 7 fuel (⟨some [97], some 1, 0⟩ :: List.replicate 7 (.empty Nat)) 0 :
      Res (Hash_Table Nat) (List (Hash_Table_Registration Nat))) = .timeout := by
  induction fuel with
  | zero => rfl
  | succ n ih => exact ih

/-! ### The swap test of `insert` -/

/-- One round of the probing loop of `insert` on a slot held by another key: the incoming
entry is exchanged with the slot after it exactly when `probe_dist <
cur_htr.probe_dist`, that is when the recorded displacement of that slot is larger
than the incoming one. -/
theorem insert_loop_step {ε V : Type} (table_size fuel : Nat) (s : Insert_State V)
    (r cur : Hash_Table_Registration V) (k str : Key)
    (hr : s.reg[s.location]? = some r) (hk : r.key = some k) (hstr : s.str = some str)
    (hne : k ≠ str) (hcur : s.reg[(s.location + 1) % 2 ^ 64]? = some cur) :
    (insert_loop table_size (fuel + 1) s : Res ε (Insert_State V)) =
      if to_short (s.probe_dist + 1) < cur.probe_dist then
        insert_loop table_size fuel
          { reg := s.reg.set ((s.location + 1) % 2 ^ 64)
              { key := s.str, value := s.val, probe_dist := to_short (s.probe_dist + 1) },
            location := ((s.location + 1) % 2 ^ 64) &&& table_size,
            probe_dist := cur.probe_dist, str := cur.key, val := cur.value }
      else
        insert_loop table_size fuel
          { s with location := ((s.location + 1) % 2 ^ 64) &&& table_size,
                   probe_dist := to_short (s.probe_dist + 1) } := by
  rw [insert_loop]
  simp only [hr, hk, hstr, hne, if_false, hcur]

/-! ### What a thrown `std::length_error` leaves behind -/

/-- Function `rehash` gives the same result with any larger fuel once it ends. -/
theorem rehash_fuel_add {V : Type} (fuel more : Nat) (t : Hash_Table V)
    (h : rehash fuel t ≠ .timeout) : rehash (fuel + more) t = rehash fuel t :=
  fuel_add (fun n => rehash n t) .timeout
    (fun n hn => rehash_with_fuel (insert n) (insert (n + 1)) (insert_fuel_succ n) t hn)
    fuel more h

/-- Growth stays within `size_t`. -/
theorem grow_le_size_max (ts : Nat) : grow ts ≤ SIZE_MAX := by
  have h : grow ts < 2 ^ 64 := by
    unfold grow
    apply Nat.or_lt_two_pow
    · exact Nat.mod_lt _ (by norm_num)
    · norm_num
  simp only [SIZE_MAX]
  omega

/-- The loop of `reserve` stays within `size_t`. -/
theorem reserve_loop_le_size_max (size : Nat) : ∀ (fuel ts out : Nat), ts ≤ SIZE_MAX →
    reserve_loop size fuel ts = some out → out ≤ SIZE_MAX := by
  intro fuel
  induction fuel with
  | zero => intro ts out _ h; simp [reserve_loop] at h
  | succ n ih =>
    intro ts out hts h
    rw [reserve_loop] at h
    split at h
    · exact ih _ _ (grow_le_size_max ts) h
    · cases h; exact hts

/-- A throw out of the re-insertion loop of `rehash` carries `table_size = (size_t)(-1)`
when the throws of `insert` do. -/
theorem rehash_loop_throw {V : Type}
    (ins : Hash_Table V → Key → Option V → Res (Hash_Table V) (Int × Hash_Table V))
    (hins : ∀ t k v e, ins t k v = .throw e → e.table_size = SIZE_MAX) :
    ∀ (l : List (Hash_Table_Registration V)) (t e : Hash_Table V),
      rehash_loop ins l t = .throw e → e.table_size = SIZE_MAX := by
  intro l
  induction l with
  | nil => intro t e h; simp [rehash_loop] at h
  | cons r rest ih =>
    intro t e h
    rw [rehash_loop] at h
    cases hk : r.key with
    | none => simp only [hk] at h; exact ih t e h
    | some k =>
      simp only [hk] at h
      cases hi : ins t k r.value with
      | ok p => simp only [hi] at h; exact ih p.2 e h
      | throw e1 =>
        simp only [hi, Res.throw.injEq] at h
        subst h
        exact hins t k r.value e1 hi
      | undefined => simp only [hi] at h; cases h
      | timeout => simp only [hi] at h; cases h

/-- A throw out of the body of `rehash` carries `table_size = (size_t)(-1)`; when it is
the throw of its own test, the vector and `num_elements` are as before. -/
theorem rehash_with_throw {V : Type}
    (ins : Hash_Table V → Key → Option V → Res (Hash_Table V) (Int × Hash_Table V))
    (hins : ∀ t k v e, ins t k v = .throw e → e.table_size = SIZE_MAX)
    (t e : Hash_Table V) (h : rehash_with ins t = .throw e) :
    e.table_size = SIZE_MAX ∧
    (SIZE_MAX ≤ grow t.table_size →
      e.registry_list = t.registry_list ∧ e.num_elements = t.num_elements) := by
  unfold rehash_with at h
  simp only at h
  split at h
  · next hlt =>
    exact ⟨rehash_loop_throw ins hins _ _ e h, fun hge => absurd hlt (by omega)⟩
  · next hge =>
    simp only [Res.throw.injEq] at h
    subst h
    have := grow_le_size_max t.table_size
    exact ⟨by simp only; omega, fun _ => ⟨rfl, rfl⟩⟩

/-- A throw out of `insert` carries `table_size = (size_t)(-1)`. -/
theorem insert_throw {V : Type} : ∀ (fuel : Nat) (t : Hash_Table V) (str : Key)
    (val : Option V) (e : Hash_Table V), insert fuel t str val = .throw e →
    e.table_size = SIZE_MAX := by
  intro fuel
  induction fuel with
  | zero => intro t str val e h; simp [insert] at h
  | succ n ih =>
    intro t str val e h
    rw [insert] at h
    split at h
    · cases h
    · split at h
      · next e1 heq =>
        simp only [Res.throw.injEq] at h
        subst h
        split at heq
        · exact (rehash_with_throw (insert n) ih t e1 heq).1
        · cases heq
      · cases h
      · cases h
      · split at h
        · next heq => exact absurd heq (insert_loop_no_throw _ _ _ _)
        · cases h
        · cases h
        · cases h

/-! ### Occupied slots -/

/-- Writing one slot adds at most one occupied slot. -/
theorem occupied_set_le {V : Type} (reg : List (Hash_Table_Registration V)) (i : Nat)
    (x : Hash_Table_Registration V) :
    occupied (reg.set i x) ≤ occupied reg + (if x.key.isSome then 1 else 0) := by
  by_cases h : i < reg.length
  · unfold occupied
    rw [List.countP_set _ _ _ _ h]
    omega
  · rw [List.set_eq_of_length_le (by omega)]
    omega

/-- Writing a slot trades its old key for the new one in the count of occupied slots. -/
theorem occupied_set_swap {V : Type} (reg : List (Hash_Table_Registration V)) (i : Nat)
    (x cur : Hash_Table_Registration V) (hcur : reg[i]? = some cur) :
    occupied (reg.set i x) + (if cur.key.isSome then 1 else 0) =
      occupied reg + (if x.key.isSome then 1 else 0) := by
  obtain ⟨h, hget⟩ := List.getElem?_eq_some.1 hcur
  unfold occupied
  rw [List.countP_set _ _ _ _ h]
  have hb := List.boole_getElem_le_countP (fun r : Hash_Table_Registration V => r.key.isSome) reg i h
  simp only [hget] at hb ⊢
  omega

/-- A vector of default-constructed slots has no occupied slot. -/
theorem occupied_replicate_empty {V : Type} (n : Nat) :
    occupied (List.replicate n (Hash_Table_Registration.empty V)) = 0 := by
  unfold occupied
  rw [List.countP_replicate]
  simp [Hash_Table_Registration.empty]

/-- After `clear` no slot is occupied. -/
theorem occupied_clear {V : Type} (reg : List (Hash_Table_Registration V)) :
    occupied (reg.map (fun r => { r with key := none })) = 0 := by
  unfold occupied
  rw [List.countP_eq_zero]
  intro a ha
  obtain ⟨r, -, rfl⟩ := List.mem_map.1 ha
  simp

/-- A vector with fewer occupied slots than slots has an empty slot. -/
theorem exists_empty_slot {V : Type} : ∀ (reg : List (Hash_Table_Registration V)),
    occupied reg < reg.length →
    ∃ (i : Nat) (r : Hash_Table_Registration V), reg[i]? = some r ∧ r.key = none := by
  intro reg
  induction reg with
  | nil => intro h; simp at h
  | cons a rest ih =>
    intro h
    cases hk : a.key with
    | none => exact ⟨0, a, List.getElem?_cons_zero, hk⟩
    | some k =>
      have hc : occupied (a :: rest) = occupied rest + 1 := by
        unfold occupied
        exact List.countP_cons_of_pos _ _ (by simp [hk])
      rw [hc, List.length_cons] at h
      obtain ⟨i, r, hr, hkr⟩ := ih (by omega)
      exact ⟨i + 1, r, by rw [List.getElem?_cons_succ]; exact hr, hkr⟩

/-- The probing loop of `insert` keeps the length of the vector and the number of keys in
flight. -/
theorem insert_loop_in_flight {ε V : Type} (table_size : Nat) : ∀ (fuel : Nat)
    (s out : Insert_State V), (insert_loop table_size fuel s : Res ε _) = .ok out →
    out.reg.length = s.reg.length ∧ in_flight out = in_flight s := by
  intro fuel
  induction fuel with
  | zero => intro s out h; simp [insert_loop] at h
  | succ n ih =>
    intro s out h
    rw [insert_loop] at h
    cases h1 : s.reg[s.location]? with
    | none => simp only [h1] at h; cases h
    | some r =>
      simp only [h1] at h
      cases h2 : r.key with
      | none =>
        simp only [h2, Res.ok.injEq] at h
        subst h
        exact ⟨rfl, rfl⟩
      | some k =>
        simp only [h2] at h
        cases h3 : s.str with
        | none => simp only [h3] at h; cases h
        | some str =>
          simp only [h3] at h
          by_cases h4 : k = str
          · simp only [h4, if_true, Res.ok.injEq] at h
            subst h
            exact ⟨rfl, rfl⟩
          · simp only [h4, if_false] at h
            cases h5 : s.reg[(s.location + 1) % 2 ^ 64]? with
            | none => simp only [h5] at h; cases h
            | some cur =>
              simp only [h5] at h
              by_cases h6 : to_short (s.probe_dist + 1) < cur.probe_dist
              · simp only [h6, if_true] at h
                obtain ⟨hl, hf⟩ := ih _ _ h
                refine ⟨by rw [hl, List.length_set], ?_⟩
                rw [hf]
                unfold in_flight
                simp only [h3]
                have := occupied_set_swap s.reg ((s.location + 1) % 2 ^ 64)
                  { key := some str, value := s.val, probe_dist := to_short (s.probe_dist + 1) }
                  cur h5
                simp only [Option.isSome_some, if_true] at this ⊢
                omega
              · simp only [h6, if_false] at h
                obtain ⟨hl, hf⟩ := ih _ _ h
                refine ⟨hl, ?_⟩
                rw [hf]
                unfold in_flight
                simp only [h3]


/-! ### Soundness is kept by the calls that return -/

/-- Below `(size_t)(-1)`, growing `table_size` gives `2 * table_size + 1`. -/
theorem grow_eq_of_lt (ts : Nat) (hs : Mask_Shape ts) (hlt : grow ts < SIZE_MAX) :
    grow ts = 2 * ts + 1 := by
  obtain ⟨k, h1, h64, rfl⟩ := hs
  by_cases hk : k = 64
  · subst hk
    rw [grow_max] at hlt
    simp [SIZE_MAX] at hlt
  · rw [grow_pow k h1 (by omega), Nat.pow_succ]
    have : 0 < 2 ^ k := Nat.pos_pow_of_pos k (by norm_num)
    omega

/-- A table size of the shape `2 ^ k - 1` with `k >= 1` is at least 1. -/
theorem mask_shape_pos (ts : Nat) (hs : Mask_Shape ts) : 1 ≤ ts := by
  obtain ⟨k, h1, -, rfl⟩ := hs
  have : 2 ^ 1 ≤ 2 ^ k := Nat.pow_le_pow_right (by norm_num) h1
  omega

/-- The value `(size_t)(-1)` is below `2 ^ 64`. -/
theorem size_max_lt : SIZE_MAX < 2 ^ 64 := by
  simp [SIZE_MAX]

/-- The last statements of `insert`, after the probing loop, on a sound table with room
for one more element. -/
theorem insert_place_sound {V : Type} (t1 : Hash_Table V) (hs : Sound t1)
    (hroom : t1.num_elements + 1 ≤ t1.table_size) (fuel location : Nat) (str : Key)
    (val : Option V) (s : Insert_State V)
    (h : (insert_loop t1.table_size fuel
      { reg := t1.registry_list, location := location, probe_dist := 0, str := some str,
        val := val } : Res (Hash_Table V) _) = .ok s) :
    Sound { t1 with
      registry_list := s.reg.set s.location
        { key := s.str, value := s.val, probe_dist := s.probe_dist },
      num_elements := (t1.num_elements + 1) % 2 ^ 64 } := by
  obtain ⟨hm, hlt, hlen, hocc, hn⟩ := hs
  obtain ⟨hl, hf⟩ := insert_loop_in_flight _ _ _ _ h
  have hmod : (t1.num_elements + 1) % 2 ^ 64 = t1.num_elements + 1 := by
    apply Nat.mod_eq_of_lt
    have := size_max_lt
    omega
  refine ⟨hm, hlt, ?_, ?_, ?_⟩
  · simp only [List.length_set]
    rw [hl]
    exact hlen
  · simp only [hmod]
    have h1 := occupied_set_le s.reg s.location
      { key := s.str, value := s.val, probe_dist := s.probe_dist }
    unfold in_flight at hf
    simp only [Option.isSome_some, if_true] at hf h1
    omega
  · simp only [hmod]
    exact hroom

/-- The re-insertion loop of `rehash`, started on a sound table with room for the keys it
is to re-insert and one more, ends on a sound table that still has room for one more. -/
theorem rehash_loop_sound {V : Type}
    (ins : Hash_Table V → Key → Option V → Res (Hash_Table V) (Int × Hash_Table V))
    (hins : ∀ t k v p, Sound t → ins t k v = .ok p → Insert_Post t p.2) :
    ∀ (l : List (Hash_Table_Registration V)) (c t1 : Hash_Table V), Sound c →
      c.num_elements + occupied l + 1 ≤ c.table_size →
      rehash_loop ins l c = .ok t1 →
      Sound t1 ∧ c.table_size ≤ t1.table_size ∧
        t1.num_elements + c.table_size ≤ c.num_elements + occupied l + t1.table_size := by
  intro l
  induction l with
  | nil =>
    intro c t1 hs _ h
    simp only [rehash_loop, Res.ok.injEq] at h
    subst h
    exact ⟨hs, le_refl _, by omega⟩
  | cons r rest ih =>
    intro c t1 hs hroom h
    rw [rehash_loop] at h
    cases hk : r.key with
    | none =>
      simp only [hk] at h
      have hc : occupied (r :: rest) = occupied rest := by
        unfold occupied
        exact List.countP_cons_of_neg _ _ (by simp [hk])
      rw [hc] at hroom ⊢
      exact ih c t1 hs hroom h
    | some k =>
      simp only [hk] at h
      have hc : occupied (r :: rest) = occupied rest + 1 := by
        unfold occupied
        exact List.countP_cons_of_pos _ _ (by simp [hk])
      rw [hc] at hroom ⊢
      cases hi : ins c k r.value with
      | ok p =>
        simp only [hi] at h
        obtain ⟨hsp, hle, hpot⟩ := hins c k r.value p hs hi
        obtain ⟨hs1, hle1, hpot1⟩ := ih p.2 t1 hsp (by omega) h
        exact ⟨hs1, by omega, by omega⟩
      | throw e => simp only [hi] at h; cases h
      | undefined => simp only [hi] at h; cases h
      | timeout => simp only [hi] at h; cases h

/-- The body of `rehash` takes a sound table to a sound table with room for one more
element. -/
theorem rehash_with_sound {V : Type}
    (ins : Hash_Table V → Key → Option V → Res (Hash_Table V) (Int × Hash_Table V))
    (hins : ∀ t k v p, Sound t → ins t k v = .ok p → Insert_Post t p.2)
    (t t1 : Hash_Table V) (hs : Sound t) (h : rehash_with ins t = .ok t1) :
    Sound t1 ∧ t.table_size ≤ t1.table_size ∧
      t1.num_elements + (2 * t.table_size + 1) ≤
        t.num_elements + occupied t.registry_list + t1.table_size := by
  obtain ⟨hm, hlt, hlen, hocc, hn⟩ := hs
  unfold rehash_with at h
  simp only at h
  split at h
  · next hg =>
    have hgrow := grow_eq_of_lt t.table_size hm hg
    have hsc : Sound (⟨List.replicate (grow t.table_size + 1)
        (Hash_Table_Registration.empty V), t.num_elements, grow t.table_size⟩ :
        Hash_Table V) := by
      refine ⟨(grow_shape t.table_size hm).1, hg, ?_, ?_, ?_⟩
      · simp only [List.length_replicate]
      · simp only [occupied_replicate_empty]
        omega
      · simp only
        omega
    obtain ⟨hs1, hle1, hpot1⟩ := rehash_loop_sound ins hins t.registry_list _ t1 hsc
      (by simp only; omega) h
    simp only at hle1 hpot1
    exact ⟨hs1, by omega, by omega⟩
  · cases h

/-- A returning `insert` takes a sound table to a sound table. -/
theorem insert_sound {V : Type} : ∀ (fuel : Nat) (t : Hash_Table V) (str : Key)
    (val : Option V) (p : Int × Hash_Table V), Sound t → insert fuel t str val = .ok p →
    Insert_Post t p.2 := by
  intro fuel
  induction fuel with
  | zero => intro t str val p _ h; simp [insert] at h
  | succ n ih =>
    intro t str val p hs h
    rw [insert] at h
    split at h
    · simp only [Res.ok.injEq] at h
      subst h
      exact ⟨hs, le_refl _, by simp only; omega⟩
    · split at h
      · cases h
      · cases h
      · cases h
      · next t1 heq =>
        split at h
        · cases h
        · cases h
        · cases h
        · next s hloop =>
          simp only [Res.ok.injEq] at h
          subst h
          split at heq
          · next hl =>
            obtain ⟨hs1, hle1, hpot1⟩ := rehash_with_sound (insert n) ih t t1 hs heq
            obtain ⟨hm, hlt, hlen, hocc, hn⟩ := hs
            have hroom : t1.num_elements + 1 ≤ t1.table_size := by omega
            have hsound := insert_place_sound t1 hs1 hroom _ _ str val s hloop
            refine ⟨hsound, hle1, ?_⟩
            have := Nat.mod_le (t1.num_elements + 1) (2 ^ 64)
            simp only
            omega
          · next hl =>
            simp only [Res.ok.injEq] at heq
            subst heq
            have hload : 10 * t.num_elements ≤ 9 * t.table_size := by
              simp only [load_exceeded, decide_eq_true_eq, not_lt] at hl
              exact hl
            have hpos := mask_shape_pos t.table_size hs.1
            have hroom : t.num_elements + 1 ≤ t.table_size := by omega
            have hsound := insert_place_sound t hs hroom _ _ str val s hloop
            refine ⟨hsound, le_refl _, ?_⟩
            have := Nat.mod_le (t.num_elements + 1) (2 ^ 64)
            simp only
            omega


/-- A returning `reserve` yields a sound table. -/
theorem reserve_sound {V : Type} (fuel size : Nat) (t t1 : Hash_Table V)
    (hm : Mask_Shape t.table_size) (hn : t.num_elements ≤ t.table_size)
    (h : reserve fuel t size = .ok t1) : Sound t1 := by
  unfold reserve at h
  cases hl : reserve_loop size fuel t.table_size with
  | none => simp only [hl] at h; cases h
  | some ts =>
    simp only [hl] at h
    obtain ⟨hms, hle⟩ := reserve_loop_shape size fuel _ ts hm hl
    split at h
    · next hlt =>
      simp only [Res.ok.injEq] at h
      subst h
      refine ⟨hms, hlt, ?_, ?_, ?_⟩
      · simp only [List.length_replicate]
      · simp only [occupied_replicate_empty]
        omega
      · simp only
        omega
    · cases h

/-- The constructor yields a sound table. -/
theorem create_sound {V : Type} (fuel initial_size : Nat) (t : Hash_Table V)
    (h : create fuel initial_size = .ok t) : Sound t := by
  unfold create at h
  split at h
  · next t1 heq =>
    cases h
    exact reserve_sound fuel initial_size ⟨[], 0, 1⟩ _ ⟨1, le_refl _, by omega, rfl⟩
      (by simp only; omega) heq
  all_goals cases h

/-- Function `clear` keeps a table sound. -/
theorem clear_sound {V : Type} (t : Hash_Table V) (hs : Sound t) : Sound (clear t) := by
  obtain ⟨hm, hlt, hlen, -, -⟩ := hs
  refine ⟨hm, hlt, ?_, ?_, ?_⟩
  · simp only [clear, List.length_map]
    exact hlen
  · simp only [clear, occupied_clear]
    omega
  · simp only [clear]
    omega

/-- Every table reached by returning calls of `insert`, `rehash`, `reserve` and `clear` is
sound. -/
theorem returning_sound {V : Type} (t : Hash_Table V) (h : Returning t) : Sound t := by
  induction h with
  | create fuel initial_size t hc => exact create_sound fuel initial_size t hc
  | insert fuel str val index t t1 _ hi ih => exact (insert_sound fuel t str val _ ih hi).1
  | rehash fuel t t1 _ hr ih =>
    exact (rehash_with_sound (insert fuel) (insert_sound fuel) t t1 ih hr).1
  | reserve fuel size t t1 _ hr ih => exact reserve_sound fuel size t t1 ih.1 ih.2.2.2.2 hr
  | clear t _ ih => exact clear_sound t ih

/-! ### Probes end on a sound table -/

/-- On a table size of the shape `2 ^ k - 1`, the step `index++; index &= table_size` is
the successor modulo `table_size + 1`. -/
theorem probe_next (ts i : Nat) (hm : Mask_Shape ts) (hlt : ts < SIZE_MAX) (hi : i ≤ ts) :
    ((i + 1) % 2 ^ 64) &&& ts = (i + 1) % (ts + 1) := by
  have hsm := size_max_lt
  rw [Nat.mod_eq_of_lt (by omega)]
  obtain ⟨k, -, -, rfl⟩ := hm
  have hp : 0 < 2 ^ k := Nat.pos_pow_of_pos k (by norm_num)
  rw [Nat.and_pow_two_sub_one_eq_mod, Nat.sub_add_cancel hp]

/-- A probe that starts `d` steps before an empty slot ends within `d + 1` rounds. -/
theorem find_loop_ends {ε V : Type} (reg : List (Hash_Table_Registration V)) (ts : Nat)
    (str : Key) (hm : Mask_Shape ts) (hlt : ts < SIZE_MAX) (hlen : reg.length = ts + 1) :
    ∀ (d i : Nat) (r : Hash_Table_Registration V), i ≤ ts →
      reg[(i + d) % (ts + 1)]? = some r → r.key = none →
      ∀ fuel, d < fuel → ∃ out, (find_loop reg ts str fuel i : Res ε Nat) = .ok out := by
  intro d
  induction d with
  | zero =>
    intro i r hi hr hk fuel hf
    rw [Nat.add_zero, Nat.mod_eq_of_lt (by omega)] at hr
    cases fuel with
    | zero => omega
    | succ n =>
      refine ⟨i, ?_⟩
      rw [find_loop]
      simp only [hr, hk]
  | succ d ih =>
    intro i r hi hr hk fuel hf
    cases fuel with
    | zero => omega
    | succ n =>
      rw [find_loop]
      have hi_lt : i < reg.length := by omega
      have hsome : ∃ x, reg[i]? = some x := ⟨reg[i], List.getElem?_eq_getElem hi_lt⟩
      obtain ⟨x, hx⟩ := hsome
      simp only [hx]
      cases hxk : x.key with
      | none => exact ⟨i, rfl⟩
      | some k =>
        simp only
        by_cases hks : k = str
        · exact ⟨i, by simp only [hks, if_true]⟩
        · simp only [hks, if_false]
          rw [probe_next ts i hm hlt hi]
          have hlt2 : (i + 1) % (ts + 1) ≤ ts := by
            have := Nat.mod_lt (i + 1) (show 0 < ts + 1 by omega)
            omega
          apply ih ((i + 1) % (ts + 1)) r hlt2 _ hk n (by omega)
          rw [Nat.mod_add_mod]
          have he : i + 1 + d = i + (d + 1) := by omega
          rw [he]
          exact hr

/-- On a sound table every probe ends within `table_size + 1` rounds. -/
theorem find_loop_ends_sound {ε V : Type} (t : Hash_Table V) (hs : Sound t) (str : Key)
    (i fuel : Nat) (hi : i ≤ t.table_size) (hf : t.table_size < fuel) :
    ∃ out, (find_loop t.registry_list t.table_size str fuel i : Res ε Nat) = .ok out := by
  obtain ⟨hm, hlt, hlen, hocc, hn⟩ := hs
  obtain ⟨e, r, hr, hk⟩ := exists_empty_slot t.registry_list (by omega)
  have he : e < t.registry_list.length := (List.getElem?_eq_some.1 hr).1
  by_cases hie : i ≤ e
  · apply find_loop_ends t.registry_list t.table_size str hm hlt hlen (e - i) i r hi _ hk fuel
      (by omega)
    have h1 : i + (e - i) = e := by omega
    rw [h1, Nat.mod_eq_of_lt (by omega)]
    exact hr
  · apply find_loop_ends t.registry_list t.table_size str hm hlt hlen
      (e + (t.table_size + 1) - i) i r hi _ hk fuel (by omega)
    have h1 : i + (e + (t.table_size + 1) - i) = e + (t.table_size + 1) := by omega
    rw [h1, Nat.add_mod_right, Nat.mod_eq_of_lt (by omega)]
    exact hr

/-! ### The load test in double precision -/

/-- Claim C1 (round trip), on the run `create(0); insert("a", 1); insert("c", 2)`.
The second `insert` computes its slot index `0` with `table_size = 1`, then rehashes to
`table_size = 3`, and stores `"c"` by probing from the stale index: `"c"` lands in slot
1 although its bucket is now `2`. The probe of `operator[]` for `"c"` starts at the
empty slot 2, so it hands `nullptr` to `strcmp` (undefined) and `count("c")` is `0`:
the key that was inserted is not found. The fuel is any amount that lets the calls end. -/
theorem round_trip_lost_after_rehash (fuel : Nat) :
    (create (1 + fuel) 0 : Res Unit (Hash_Table Nat)) = .ok ⟨[.empty Nat, .empty Nat], 0, 1⟩ ∧
    insert_all (2 + fuel) (⟨[.empty Nat, .empty Nat], 0, 1⟩ : Hash_Table Nat)
        [([97], some 1), ([99], some 2)] =
      .ok ⟨[⟨some [97], some 1, 0⟩, ⟨some [99], some 2, 1⟩, .empty Nat, .empty Nat], 3, 3⟩ ∧
    hash_element 3 [99] = 2 ∧
    operator_index (1 + fuel) (⟨[⟨some [97], some 1, 0⟩, ⟨some [99], some 2, 1⟩,
        .empty Nat, .empty Nat], 3, 3⟩ : Hash_Table Nat) [99] = .undefined ∧
    count (1 + fuel) (⟨[⟨some [97], some 1, 0⟩, ⟨some [99], some 2, 1⟩,
        .empty Nat, .empty Nat], 3, 3⟩ : Hash_Table Nat) [99] = .ok 0 := by
  rw [create_fuel_add 1 fuel 0 (by decide), insert_all_fuel_add 2 fuel _ _ (by decide),
    operator_index_fuel_add 1 fuel _ _ (by decide), count_fuel_add 1 fuel _ _ (by decide)]
  decide

/-- Claim C2 (key uniqueness), on the run
`create(0); insert("a", 1); insert("c", 2); insert("c", 3)`. The third `insert` rehashes
to `table_size = 7`, which re-inserts `"c"` into slot 6, and then stores `"c"` a second
time from its stale index 2: two occupied slots hold the key `"c"`, and `operator[]`
returns the value of the older one. The fuel is any amount that lets the calls end. -/
theorem duplicate_key_after_rehash (fuel : Nat) :
    (create (1 + fuel) 0 : Res Unit (Hash_Table Nat)) = .ok ⟨[.empty Nat, .empty Nat], 0, 1⟩ ∧
    insert_all (3 + fuel) (⟨[.empty Nat, .empty Nat], 0, 1⟩ : Hash_Table Nat)
        [([97], some 1), ([99], some 2), ([99], some 3)] =
      .ok ⟨[⟨some [97], some 1, 0⟩, .empty Nat, ⟨some [99], some 3, 0⟩, .empty Nat,
            .empty Nat, .empty Nat, ⟨some [99], some 2, 0⟩, .empty Nat], 6, 7⟩ ∧
    slots_holding (⟨[⟨some [97], some 1, 0⟩, .empty Nat, ⟨some [99], some 3, 0⟩, .empty Nat,
        .empty Nat, .empty Nat, ⟨some [99], some 2, 0⟩, .empty Nat], 6, 7⟩ : Hash_Table Nat)
        [99] = [⟨some [99], some 3, 0⟩, ⟨some [99], some 2, 0⟩] ∧
    operator_index (1 + fuel) (⟨[⟨some [97], some 1, 0⟩, .empty Nat,
        ⟨some [99], some 3, 0⟩, .empty Nat, .empty Nat, .empty Nat, ⟨some [99], some 2, 0⟩,
        .empty Nat], 6, 7⟩ : Hash_Table Nat) [99] = .ok (some 2) := by
  rw [create_fuel_add 1 fuel 0 (by decide), insert_all_fuel_add 3 fuel _ _ (by decide),
    operator_index_fuel_add 1 fuel _ _ (by decide)]
  decide

/-- Claim C3 (re-insertion), on the run `create(4); insert("a", 1); insert("a", 2)`.
The second `insert` finds `"a"` in slot 0 and overwrites its value, and `operator[]`
then returns the new value, but `num_elements` goes from 1 to 2: the increment at the
end of `insert` is unconditional. The fuel is any amount that lets the calls end. -/
theorem reinsert_increments_count (fuel : Nat) :
    (create (4 + fuel) 4 : Res Unit (Hash_Table Nat)) =
      .ok ⟨List.replicate 8 (.empty Nat), 0, 7⟩ ∧
    insert (1 + fuel) (⟨List.replicate 8 (.empty Nat), 0, 7⟩ : Hash_Table Nat) [97] (some 1) =
      .ok (0, ⟨⟨some [97], some 1, 0⟩ :: List.replicate 7 (.empty Nat), 1, 7⟩) ∧
    insert (1 + fuel) (⟨⟨some [97], some 1, 0⟩ :: List.replicate 7 (.empty Nat), 1, 7⟩ :
        Hash_Table Nat) [97] (some 2) =
      .ok (0, ⟨⟨some [97], some 2, 0⟩ :: List.replicate 7 (.empty Nat), 2, 7⟩) ∧
    operator_index (1 + fuel) (⟨⟨some [97], some 2, 0⟩ :: List.replicate 7 (.empty Nat), 2, 7⟩ :
        Hash_Table Nat) [97] = .ok (some 2) := by
  rw [create_fuel_add 4 fuel 4 (by decide), insert_fuel_add 1 fuel _ [97] (some 1) (by decide),
    insert_fuel_add 1 fuel _ [97] (some 2) (by decide),
    operator_index_fuel_add 1 fuel _ _ (by decide)]
  decide

/-- Claim C4 as stated fails on the run `create(0); insert("a", 1)`: the table has
`table_size = 1`, the test `num_elements > load_factor * table_size` is made before the
key is stored, and the call returns with `num_elements = 1`, which is more than
`0.9 * 1`. -/
theorem count_above_load_after_insert :
    (create 1 0 : Res Unit (Hash_Table Nat)) = .ok ⟨[.empty Nat, .empty Nat], 0, 1⟩ ∧
    insert 1 (⟨[.empty Nat, .empty Nat], 0, 1⟩ : Hash_Table Nat) [97] (some 1) =
      .ok (0, ⟨[⟨some [97], some 1, 0⟩, .empty Nat], 1, 1⟩) ∧
    ¬ (10 * (⟨[⟨some [97], some 1, 0⟩, .empty Nat], 1, 1⟩ : Hash_Table Nat).num_elements
        ≤ 9 * (⟨[⟨some [97], some 1, 0⟩, .empty Nat], 1, 1⟩ : Hash_Table Nat).table_size) := by
  decide

/-- Claim C4, amended: when an `insert` that finds `num_elements <= 0.9 * table_size` on
entry (so that it does not rehash) returns, `table_size` is unchanged and
`num_elements <= 0.9 * table_size + 1`. -/
theorem insert_count_bound {V : Type} (fuel : Nat) (t t1 : Hash_Table V) (str : Key)
    (val : Option V) (index : Int)
    (hload : 10 * t.num_elements ≤ 9 * t.table_size)
    (hret : insert fuel t str val = .ok (index, t1)) :
    t1.table_size = t.table_size ∧ 10 * t1.num_elements ≤ 9 * t1.table_size + 10 := by
  cases fuel with
  | zero => simp [insert] at hret
  | succ n =>
    have hl : load_exceeded t.num_elements t.table_size = false := by
      simp [load_exceeded]; omega
    simp only [insert, hl] at hret
    split at hret
    · cases hret
      exact ⟨rfl, by omega⟩
    · simp only [Bool.false_eq_true, if_false] at hret
      split at hret <;> try (simp at hret)
      obtain ⟨-, rfl⟩ := hret
      refine ⟨rfl, ?_⟩
      simp only
      have := Nat.mod_le (t.num_elements + 1) (2 ^ 64)
      omega

/-- The amended claim C4 on `create(4); insert("a", 1)`. -/
theorem insert_count_bound_witness :
    10 * (⟨List.replicate 8 (.empty Nat), 0, 7⟩ : Hash_Table Nat).num_elements
      ≤ 9 * (⟨List.replicate 8 (.empty Nat), 0, 7⟩ : Hash_Table Nat).table_size ∧
    insert 1 (⟨List.replicate 8 (.empty Nat), 0, 7⟩ : Hash_Table Nat) [97] (some 1) =
      .ok (0, ⟨⟨some [97], some 1, 0⟩ :: List.replicate 7 (.empty Nat), 1, 7⟩) ∧
    (⟨⟨some [97], some 1, 0⟩ :: List.replicate 7 (.empty Nat), 1, 7⟩ :
        Hash_Table Nat).table_size = 7 ∧
    10 * (⟨⟨some [97], some 1, 0⟩ :: List.replicate 7 (.empty Nat), 1, 7⟩ :
        Hash_Table Nat).num_elements ≤ 9 * 7 + 10 :=
  ⟨by decide, by decide,
   insert_count_bound 1 ⟨List.replicate 8 (.empty Nat), 0, 7⟩
     ⟨⟨some [97], some 1, 0⟩ :: List.replicate 7 (.empty Nat), 1, 7⟩ [97] (some 1) 0
     (by decide) (by decide)⟩

/-- Claim C5 (deletion), on the run `create(4); insert("a", 1); remove("a")`. The
probe finds `"a"` in slot 0; the repair loop then runs for ever, whatever the fuel: the
call of `remove` does not return. -/
theorem remove_stored_key_never_returns (fuel : Nat) :
    insert (1 + fuel) (⟨List.replicate 8 (.empty Nat), 0, 7⟩ : Hash_Table Nat) [97] (some 1) =
      .ok (0, ⟨⟨some [97], some 1, 0⟩ :: List.replicate 7 (.empty Nat), 1, 7⟩) ∧
    remove fuel (⟨⟨some [97], some 1, 0⟩ :: List.replicate 7 (.empty Nat), 1, 7⟩ :
        Hash_Table Nat) [97] = .timeout := by
  refine ⟨by rw [insert_fuel_add 1 fuel _ [97] (some 1) (by decide)]; decide, ?_⟩
  cases fuel with
  | zero => rfl
  | succ n =>
    have h := remove_loop_spins (n + 1)
    simp only [remove, find_element_beyond_tombstones]
    have hh : hash_element 7 [97] = 0 := by decide
    simp only [hh]
    have hf : (find_loop (⟨some [97], some 1, 0⟩ :: List.replicate 7 (.empty Nat)) 7 [97]
        (n + 1) (0 &&& 7) : Res (Hash_Table Nat) Nat) = .ok 0 := rfl
    rw [hf]
    simp only [h]
    rfl

/-- Claim C6 (`remove` is a no-op on a miss), on `create(0); clear_memory(); remove("b")`
and on `create(0); reserve((size_t)(-1)); remove("b")`. Both tables are reachable and no
slot of either holds `"b"`. After `clear_memory` the vector has one slot for
`table_size = 1`; `remove("b")` probes from index 1 and reads `registry_list[1]`, outside
the vector. After the throw of `reserve` the vector has two slots for
`table_size = 2 ^ 64 - 1`; `remove("b")` probes from index 3255. Neither call returns
with the table as it was: both are undefined behaviour, for every fuel. -/
theorem remove_miss_out_of_bounds (fuel : Nat) :
    (create (1 + fuel) 0 : Res Unit (Hash_Table Nat)) = .ok ⟨[.empty Nat, .empty Nat], 0, 1⟩ ∧
    clear_memory (⟨[.empty Nat, .empty Nat], 0, 1⟩ : Hash_Table Nat) = ⟨[.empty Nat], 0, 1⟩ ∧
    Reachable (⟨[.empty Nat], 0, 1⟩ : Hash_Table Nat) ∧
    slots_holding (⟨[.empty Nat], 0, 1⟩ : Hash_Table Nat) [98] = [] ∧
    hash_element 1 [98] = 1 ∧
    remove (fuel + 1) (⟨[.empty Nat], 0, 1⟩ : Hash_Table Nat) [98] = .undefined ∧
    reserve 65 (⟨[.empty Nat, .empty Nat], 0, 1⟩ : Hash_Table Nat) (2 ^ 64 - 1) =
      .throw ⟨[.empty Nat, .empty Nat], 0, 2 ^ 64 - 1⟩ ∧
    Reachable (⟨[.empty Nat, .empty Nat], 0, 2 ^ 64 - 1⟩ : Hash_Table Nat) ∧
    slots_holding (⟨[.empty Nat, .empty Nat], 0, 2 ^ 64 - 1⟩ : Hash_Table Nat) [98] = [] ∧
    hash_element (2 ^ 64 - 1) [98] = 3255 ∧
    remove (fuel + 1) (⟨[.empty Nat, .empty Nat], 0, 2 ^ 64 - 1⟩ : Hash_Table Nat) [98] =
      .undefined := by
  rw [create_fuel_add 1 fuel 0 (by decide)]
  have hcreate : Reachable (⟨[.empty Nat, .empty Nat], 0, 1⟩ : Hash_Table Nat) :=
    Reachable.create 1 0 _ (by decide)
  exact ⟨by decide, rfl,
    Reachable.step 0 Op.clear_memory ⟨[.empty Nat, .empty Nat], 0, 1⟩ _ hcreate rfl,
    by decide, by decide, rfl, by decide,
    Reachable.step 65 (Op.reserve (2 ^ 64 - 1)) ⟨[.empty Nat, .empty Nat], 0, 1⟩ _ hcreate
      (by decide),
    by decide, by decide, rfl⟩

/-- What holds of claim C6 where the probe stays inside the vector: on every table,
`remove("")` returns with the table as it was, and so does `remove(str)` when the probe
path of `str` runs over `d` slots occupied by other keys and then reaches an empty slot
(given fuel for the `d + 1` rounds of the probe): `registry_list`, `num_elements` and
`table_size` are unchanged. -/
theorem remove_miss_is_noop {V : Type} (fuel : Nat) (t : Hash_Table V) (str : Key) :
    (str = [] → remove fuel t str = .ok t) ∧
    (∀ d, d < fuel → Probe_Miss t str d → remove fuel t str = .ok t) := by
  constructor
  · rintro rfl
    simp [remove, hash_element]
  · intro d hd hmiss
    obtain ⟨hocc, hend⟩ := hmiss
    have hfind := @find_loop_miss (Hash_Table V) V t.registry_list t.table_size str d fuel
      (hash_element t.table_size str &&& t.table_size) hd hocc hend
    obtain ⟨r, hr, hk⟩ := hend
    simp only [remove, find_element_beyond_tombstones, hfind]
    split
    · rfl
    · simp only [probe_index] at hr
      rw [hr]
      simp only [hk]

/-- The table of `create(4); insert("a", 1)`: `remove("")`, and `remove("i")`, whose probe
passes slot 0 (held by `"a"`) and stops at the empty slot 1, leave it as it was. -/
theorem remove_miss_is_noop_witness :
    Probe_Miss (⟨⟨some [97], some 1, 0⟩ :: List.replicate 7 (.empty Nat), 1, 7⟩ :
      Hash_Table Nat) [105] 1 ∧
    remove 2 (⟨⟨some [97], some 1, 0⟩ :: List.replicate 7 (.empty Nat), 1, 7⟩ :
        Hash_Table Nat) [105] =
      .ok ⟨⟨some [97], some 1, 0⟩ :: List.replicate 7 (.empty Nat), 1, 7⟩ ∧
    remove 2 (⟨⟨some [97], some 1, 0⟩ :: List.replicate 7 (.empty Nat), 1, 7⟩ :
        Hash_Table Nat) [] =
      .ok ⟨⟨some [97], some 1, 0⟩ :: List.replicate 7 (.empty Nat), 1, 7⟩ :=
  have hmiss : Probe_Miss (⟨⟨some [97], some 1, 0⟩ :: List.replicate 7 (.empty Nat), 1, 7⟩ :
      Hash_Table Nat) [105] 1 :=
    ⟨fun j hj => by
        have hj0 : j = 0 := by omega
        subst hj0
        exact ⟨⟨some [97], some 1, 0⟩, [97], by decide, rfl, by decide⟩,
      ⟨.empty Nat, by decide, rfl⟩⟩
  ⟨hmiss, (remove_miss_is_noop 2 _ [105]).2 1 (by decide) hmiss,
   (remove_miss_is_noop 2 _ []).1 rfl⟩

/-- Claim C7 (empty-key rejection): on every table, `insert("", val)` returns `-1` and
leaves `registry_list`, `num_elements` and `table_size` as they were; no rehash is
made. -/
theorem insert_empty_key_rejected {V : Type} (fuel : Nat) (t : Hash_Table V)
    (val : Option V) : insert (fuel + 1) t [] val = .ok (-1, t) := by
  simp [insert, hash_element]

/-- Claim C8 (lookup of an absent key), on `create(0); lookup("nonexistent")`.
The probe ends at the empty slot 0, whose key is `nullptr`; `operator[]` passes it to
`strcmp`, which is undefined behaviour, and no `std::invalid_argument` is thrown. The
fuel is any amount that lets the calls end. -/
theorem lookup_absent_key_undefined (fuel : Nat) :
    (create (1 + fuel) 0 : Res Unit (Hash_Table Nat)) = .ok ⟨[.empty Nat, .empty Nat], 0, 1⟩ ∧
    (find_element_beyond_tombstones (1 + fuel)
        (⟨[.empty Nat, .empty Nat], 0, 1⟩ : Hash_Table Nat)
        [110, 111, 110, 101, 120, 105, 115, 116, 101, 110, 116]
        (hash_element 1 [110, 111, 110, 101, 120, 105, 115, 116, 101, 110, 116]) :
      Res Unit Nat) = .ok 0 ∧
    operator_index (1 + fuel) (⟨[.empty Nat, .empty Nat], 0, 1⟩ : Hash_Table Nat)
        [110, 111, 110, 101, 120, 105, 115, 116, 101, 110, 116] = .undefined := by
  rw [create_fuel_add 1 fuel 0 (by decide), find_element_fuel_add 1 fuel _ _ _ (by decide),
    operator_index_fuel_add 1 fuel _ _ (by decide)]
  decide

/-- The example of claim C9: the hint 4 gives `table_size = 7` and 8 empty slots, and a
throw when the allocator grants only 7 slots. -/
theorem create_hint_four :
    (create_double 8 64 4 : Res Unit (Hash_Table Nat)) =
      .ok ⟨List.replicate 8 (Hash_Table_Registration.empty Nat), 0, 7⟩ ∧
    (create_double 7 64 4 : Res Unit (Hash_Table Nat)) = .throw () ∧
    (create 64 4 : Res Unit (Hash_Table Nat)) =
      .ok ⟨List.replicate 8 (Hash_Table_Registration.empty Nat), 0, 7⟩ := by
  decide

/-- Claim C10 (capacity shape): every table reachable from the constructor by calls of
`reserve`, `insert`, `remove`, `clear`, `rehash` and `clear_memory` has a `table_size`
of the form `2 ^ k - 1`, and a call of any of them but `clear_memory` leaves a
`table_size` that is not smaller, on return and at a throw. -/
theorem capacity_shape {V : Type} (t : Hash_Table V) (h : Reachable t) :
    (∃ k, t.table_size = 2 ^ k - 1) ∧
    ∀ (fuel : Nat) (op : Op V) (t1 : Hash_Table V), op ≠ Op.clear_memory →
      (run_op fuel t op).state = some t1 → t.table_size ≤ t1.table_size := by
  have hs := reachable_shape t h
  refine ⟨?_, fun fuel op t1 hop hstep => ((run_op_leaves fuel t op hs hop).of_state hstep).2⟩
  obtain ⟨k, -, -, hk⟩ := hs
  exact ⟨k, hk⟩

/-- Claim C10 on the table of `create(0); insert("a", 1)` and the call
`insert("c", 2)`, which rehashes from `table_size = 1` to `table_size = 3`. -/
theorem capacity_shape_witness :
    Reachable (⟨[⟨some [97], some 1, 0⟩, .empty Nat], 1, 1⟩ : Hash_Table Nat) ∧
    (∃ k, (⟨[⟨some [97], some 1, 0⟩, .empty Nat], 1, 1⟩ : Hash_Table Nat).table_size
      = 2 ^ k - 1) ∧
    (⟨[⟨some [97], some 1, 0⟩, .empty Nat], 1, 1⟩ : Hash_Table Nat).table_size ≤
      (⟨[⟨some [97], some 1, 0⟩, ⟨some [99], some 2, 1⟩, .empty Nat, .empty Nat], 3, 3⟩ :
        Hash_Table Nat).table_size :=
  have hreach : Reachable (⟨[⟨some [97], some 1, 0⟩, .empty Nat], 1, 1⟩ : Hash_Table Nat) :=
    Reachable.step 1 (Op.insert [97] (some 1)) ⟨[.empty Nat, .empty Nat], 0, 1⟩ _
      (Reachable.create 1 0 _ (by decide)) (by decide)
  ⟨hreach, (capacity_shape _ hreach).1,
   (capacity_shape _ hreach).2 2 (Op.insert [99] (some 2)) _ (by decide) (by decide)⟩

/-- Claim C11 (`rehash` preserves the mapping), on the run
`create(0); insert("j", 1); insert("z", 2); rehash()`. Both keys hash to 7 under
`table_size = 7`. The `rehash` re-inserts `"z"` into slot 7, the last one; the
re-insertion of `"j"` finds it occupied, does `location++` and reads
`registry_list[8]` before the index is masked: an access outside the 8 slots, which
is undefined behaviour. The fuel is any amount that lets the calls end. -/
theorem rehash_reads_out_of_bounds (fuel : Nat) :
    (create (1 + fuel) 0 : Res Unit (Hash_Table Nat)) = .ok ⟨[.empty Nat, .empty Nat], 0, 1⟩ ∧
    insert_all (2 + fuel) (⟨[.empty Nat, .empty Nat], 0, 1⟩ : Hash_Table Nat)
        [([106], some 1), ([122], some 2)] =
      .ok ⟨[.empty Nat, ⟨some [122], some 2, 0⟩, .empty Nat, ⟨some [106], some 1, 0⟩], 3, 3⟩ ∧
    hash_element 7 [122] = 7 ∧ hash_element 7 [106] = 7 ∧
    rehash (1 + fuel) (⟨[.empty Nat, ⟨some [122], some 2, 0⟩, .empty Nat,
        ⟨some [106], some 1, 0⟩], 3, 3⟩ : Hash_Table Nat) = .undefined := by
  rw [create_fuel_add 1 fuel 0 (by decide), insert_all_fuel_add 2 fuel _ _ (by decide),
    rehash_fuel_add 1 fuel _ (by decide)]
  decide

/-- Claim C12 (`clear_memory` resets to a fresh minimal table): after `clear_memory`,
`table_size` is 1 and `num_elements` is 0, but the vector has one slot where the table
of `create(0)` has two. The key `"b"` hashes to 1: `insert("b", 1)` stores it in slot 1
of the fresh table and returns 1, and reads `registry_list[1]` outside the vector on the
cleared one. The fuel is any amount that lets the calls end. -/
theorem clear_memory_insert_out_of_bounds (fuel : Nat) (t : Hash_Table Nat) :
    (clear_memory t).table_size = 1 ∧ (clear_memory t).num_elements = 0 ∧
    (clear_memory t).registry_list = [.empty Nat] ∧
    hash_element 1 [98] = 1 ∧
    insert (1 + fuel) (clear_memory t) [98] (some 1) = .undefined ∧
    (create (1 + fuel) 0 : Res Unit (Hash_Table Nat)) = .ok ⟨[.empty Nat, .empty Nat], 0, 1⟩ ∧
    insert (1 + fuel) (⟨[.empty Nat, .empty Nat], 0, 1⟩ : Hash_Table Nat) [98] (some 1) =
      .ok (1, ⟨[.empty Nat, ⟨some [98], some 1, 0⟩], 1, 1⟩) := by
  have hc : clear_memory t = ⟨[.empty Nat], 0, 1⟩ := rfl
  rw [hc, create_fuel_add 1 fuel 0 (by decide), insert_fuel_add 1 fuel _ [98] (some 1) (by decide),
    insert_fuel_add 1 fuel _ [98] (some 1) (by decide)]
  decide

/-- Claim C13 (a thrown `std::length_error` leaves the table as it was), on
`create(0); reserve((size_t)(-1))`: the loop of `reserve` grows the member `table_size`
from 1 to `2 ^ 64 - 1` and the call then throws with that `table_size` in place, next to
the old vector of 2 slots. -/
theorem reserve_throw_changes_table_size :
    reserve 65 (⟨[.empty Nat, .empty Nat], 0, 1⟩ : Hash_Table Nat) (2 ^ 64 - 1) =
      .throw ⟨[.empty Nat, .empty Nat], 0, 2 ^ 64 - 1⟩ ∧
    (⟨[.empty Nat, .empty Nat], 0, 2 ^ 64 - 1⟩ : Hash_Table Nat).table_size ≠
      (⟨[.empty Nat, .empty Nat], 0, 1⟩ : Hash_Table Nat).table_size := by
  decide

/-- What a thrown `std::length_error` does leave: when `reserve` throws, `table_size` is
`(size_t)(-1)` and the vector and `num_elements` are as before the call; when `rehash`
throws, `table_size` is `(size_t)(-1)`, and the vector and `num_elements` are as before
the call if the throw is that of its own test (the grown `table_size` is
`(size_t)(-1)`). -/
theorem length_error_leaves {V : Type} (fuel : Nat) (t e : Hash_Table V)
    (hsize : t.table_size ≤ SIZE_MAX) :
    (∀ size, reserve fuel t size = .throw e →
      e.table_size = SIZE_MAX ∧ e.registry_list = t.registry_list ∧
        e.num_elements = t.num_elements) ∧
    (rehash fuel t = .throw e →
      e.table_size = SIZE_MAX ∧
      (SIZE_MAX ≤ grow t.table_size →
        e.registry_list = t.registry_list ∧ e.num_elements = t.num_elements)) := by
  constructor
  · intro size h
    unfold reserve at h
    cases hl : reserve_loop size fuel t.table_size with
    | none => simp only [hl] at h; cases h
    | some ts =>
      simp only [hl] at h
      have hle := reserve_loop_le_size_max size fuel _ ts hsize hl
      split at h
      · cases h
      · simp only [Res.throw.injEq] at h
        subst h
        exact ⟨by simp only; omega, rfl, rfl⟩
  · intro h
    exact rehash_with_throw (insert fuel) (insert_throw fuel) t e h

/-- The state left by the throw of `create(0); reserve((size_t)(-1))`, and a `rehash` of
that state, which throws again. -/
theorem length_error_leaves_witness :
    ((⟨[.empty Nat, .empty Nat], 0, 2 ^ 64 - 1⟩ : Hash_Table Nat).table_size = SIZE_MAX ∧
      (⟨[.empty Nat, .empty Nat], 0, 2 ^ 64 - 1⟩ : Hash_Table Nat).registry_list =
        [.empty Nat, .empty Nat] ∧
      (⟨[.empty Nat, .empty Nat], 0, 2 ^ 64 - 1⟩ : Hash_Table Nat).num_elements = 0) ∧
    rehash 1 (⟨[.empty Nat, .empty Nat], 0, 2 ^ 64 - 1⟩ : Hash_Table Nat) =
      .throw ⟨[.empty Nat, .empty Nat], 0, 2 ^ 64 - 1⟩ :=
  ⟨(length_error_leaves 65 (⟨[.empty Nat, .empty Nat], 0, 1⟩ : Hash_Table Nat)
      ⟨[.empty Nat, .empty Nat], 0, 2 ^ 64 - 1⟩ (by decide)).1 (2 ^ 64 - 1) (by decide),
   by decide⟩

/-- Claim C14 (Robin Hood swap rule), on `create(4)` and the keys `"a"`, `"h"`, `"i"`,
`"p"`, whose buckets under `table_size = 7` are 0, 1, 0, 1. Inserting `"i"` after `"a"`
and `"h"`: at slot 1 the occupant `"h"` has displacement 0, smaller than the incoming
displacement 1, and is not exchanged; `"i"` goes to slot 2 with displacement 2.
Inserting `"p"` then: at slot 2 the occupant `"i"` has displacement 2, larger than the
incoming displacement 1, and is exchanged: `"p"` takes slot 2 and `"i"` moves on to slot
3 with displacement 3. The fuel is any amount that lets the calls end. -/
theorem swap_rule_reversed (fuel : Nat) :
    insert_all (4 + fuel) (⟨List.replicate 8 (.empty Nat), 0, 7⟩ : Hash_Table Nat)
        [([97], some 1), ([104], some 2), ([105], some 3)] =
      .ok ⟨[⟨some [97], some 1, 0⟩, ⟨some [104], some 2, 0⟩, ⟨some [105], some 3, 2⟩,
            .empty Nat, .empty Nat, .empty Nat, .empty Nat, .empty Nat], 3, 7⟩ ∧
    insert (4 + fuel) (⟨[⟨some [97], some 1, 0⟩, ⟨some [104], some 2, 0⟩,
        ⟨some [105], some 3, 2⟩, .empty Nat, .empty Nat, .empty Nat, .empty Nat, .empty Nat],
        3, 7⟩ : Hash_Table Nat) [112] (some 4) =
      .ok (3, ⟨[⟨some [97], some 1, 0⟩, ⟨some [104], some 2, 0⟩, ⟨some [112], some 4, 1⟩,
            ⟨some [105], some 3, 3⟩, .empty Nat, .empty Nat, .empty Nat, .empty Nat], 4, 7⟩) := by
  rw [insert_all_fuel_add 4 fuel _ _ (by decide), insert_fuel_add 4 fuel _ [112] (some 4) (by decide)]
  decide

/-- Claim C15 (probe wraparound in `insert`), on the run
`create(4); insert("b", 1); insert("j", 2)`. Both keys hash to 7, the last slot. The
second `insert` finds slot 7 held by `"b"`, does `location++` and reads
`registry_list[8]`, outside the 8 slots, before `location &= table_size`. The fuel is
any amount that lets the calls end. -/
theorem insert_probe_out_of_bounds (fuel : Nat) :
    insert (1 + fuel) (⟨List.replicate 8 (.empty Nat), 0, 7⟩ : Hash_Table Nat) [98] (some 1) =
      .ok (7, ⟨List.replicate 7 (.empty Nat) ++ [⟨some [98], some 1, 0⟩], 1, 7⟩) ∧
    hash_element 7 [106] = 7 ∧
    (List.replicate 7 (.empty Nat) ++ [(⟨some [98], some 1, 0⟩ : Hash_Table_Registration Nat)])[7 + 1]? = none ∧
    insert (1 + fuel) (⟨List.replicate 7 (.empty Nat) ++ [⟨some [98], some 1, 0⟩], 1, 7⟩ :
        Hash_Table Nat) [106] (some 2) = .undefined := by
  rw [insert_fuel_add 1 fuel _ [98] (some 1) (by decide), insert_fuel_add 1 fuel _ [106] (some 2) (by decide)]
  decide

/-- Claim C16 (the repair loop of `remove`): for every vector, started on an occupied slot
whose next slot is empty, the repair loop does not end, whatever the fuel: the scan
finds no candidate, the slot is copied onto itself, and the loop is back on the same
occupied slot. -/
theorem repair_loop_never_ends {ε V : Type} (table_size : Nat) (location : Nat)
    (hmask : (location % 2 ^ 64) &&& table_size = location) :
    ∀ (fuel : Nat) (reg : List (Hash_Table_Registration V))
      (old nxt : Hash_Table_Registration V) (k : Key),
      reg[location]? = some old → old.key = some k →
      reg[(location + 1) % 2 ^ 64]? = some nxt → nxt.key = none →
      (remove_loop table_size fuel reg location :
        Res ε (List (Hash_Table_Registration V))) = .timeout := by
  have hlt : location < 2 ^ 64 := by
    have h1 : (location % 2 ^ 64) &&& table_size ≤ location % 2 ^ 64 := Nat.and_le_left
    have h2 : location % 2 ^ 64 < 2 ^ 64 := Nat.mod_lt _ (by norm_num)
    omega
  intro fuel
  induction fuel with
  | zero => intro reg old nxt k _ _ _ _; rfl
  | succ n ih =>
    intro reg old nxt k hold hk hnext hempty
    have hscan : (remove_scan reg location 9 1 0 : Res ε Nat) = .ok 0 := by
      rw [remove_scan]
      simp only [hnext, hempty]
    have hzero : (location + 0) % 2 ^ 64 = location := by
      rw [Nat.add_zero]; exact Nat.mod_eq_of_lt hlt
    have hloc : location < reg.length := (List.getElem?_eq_some.1 hold).1
    rw [remove_loop]
    simp only [hold, hk, hscan, hzero]
    have hm : location &&& table_size = location := by
      rw [Nat.mod_eq_of_lt hlt] at hmask; exact hmask
    rw [hm]
    have hne : location ≠ (location + 1) % 2 ^ 64 := by omega
    exact ih _ _ nxt k (List.getElem?_set_self hloc) rfl
      (by rw [List.getElem?_set_ne hne]; exact hnext) hempty

/-- Claim C16 on the table of `create(4); insert("a", 1)`, for the repair that
`remove("a")` starts on slot 0. -/
theorem repair_loop_never_ends_witness :
    (0 % 2 ^ 64) &&& 7 = 0 ∧
    (remove_loop 7 1000 (⟨some [97], some 1, 0⟩ :: List.replicate 7 (.empty Nat)) 0 :
      Res Unit (List (Hash_Table_Registration Nat))) = .timeout :=
  ⟨by decide,
   repair_loop_never_ends 7 0 (by decide) 1000
     (⟨some [97], some 1, 0⟩ :: List.replicate 7 (.empty Nat))
     ⟨some [97], some 1, 0⟩ (.empty Nat) [97] rfl rfl rfl rfl⟩

/-- Claim C17 (the legacy table is prime-sized): for `initial_size = 0` the legacy
constructor makes a vector of length `find_next_prime(0) = 1`, and for
`initial_size = 840` one of length `find_next_prime(1680) = 1681 = 41 * 41`; neither is
a prime. Only the primes up to 37 are tried as divisors. -/
theorem legacy_length_not_prime (fuel : Nat) :
    legacy_registry_length (fuel + 1) 0 = some 1 ∧ ¬ Nat.Prime 1 ∧
    legacy_registry_length (fuel + 1) 840 = some 1681 ∧ 1681 = 41 * 41 ∧ ¬ Nat.Prime 1681 := by
  refine ⟨rfl, Nat.not_prime_one, rfl, rfl, ?_⟩
  norm_num

/-- Claim C18 (count is the number of entries), on the run
`create(4); insert("a", 1); insert("a", 2)`: `num_elements` is 2 and one slot is
occupied. The fuel is any amount that lets the calls end. -/
theorem count_exceeds_occupied (fuel : Nat) :
    insert_all (1 + fuel) (⟨List.replicate 8 (.empty Nat), 0, 7⟩ : Hash_Table Nat)
        [([97], some 1), ([97], some 2)] =
      .ok ⟨⟨some [97], some 2, 0⟩ :: List.replicate 7 (.empty Nat), 2, 7⟩ ∧
    occupied (⟨some [97], some 2, 0⟩ :: List.replicate 7 (.empty Nat) :
      List (Hash_Table_Registration Nat)) = 1 := by
  rw [insert_all_fuel_add 1 fuel _ _ (by decide)]
  decide

/-- Claim C19 (`clear` gives a table equivalent to a fresh one), on the run
`create(4); insert("a", 1); insert("h", 2); insert("i", 3); clear();` followed by
`insert("h", 5); insert("p", 6)`. The `clear` leaves `probe_dist = 2` in the emptied
slot 2. The probe of `"p"` reaches slot 2 with displacement 1, which is less than 2, so
`insert` exchanges the incoming entry with the empty slot and goes on with the key
`nullptr`, which it hands to `strcmp`: undefined behaviour. On the fresh table of the
same capacity the two calls return. The fuel is any amount that lets the calls end. -/
theorem insert_after_clear_undefined (fuel : Nat) :
    insert_all (4 + fuel) (⟨List.replicate 8 (.empty Nat), 0, 7⟩ : Hash_Table Nat)
        [([97], some 1), ([104], some 2), ([105], some 3)] =
      .ok ⟨[⟨some [97], some 1, 0⟩, ⟨some [104], some 2, 0⟩, ⟨some [105], some 3, 2⟩,
            .empty Nat, .empty Nat, .empty Nat, .empty Nat, .empty Nat], 3, 7⟩ ∧
    clear (⟨[⟨some [97], some 1, 0⟩, ⟨some [104], some 2, 0⟩, ⟨some [105], some 3, 2⟩,
            .empty Nat, .empty Nat, .empty Nat, .empty Nat, .empty Nat], 3, 7⟩ : Hash_Table Nat) =
      ⟨[⟨none, some 1, 0⟩, ⟨none, some 2, 0⟩, ⟨none, some 3, 2⟩,
            .empty Nat, .empty Nat, .empty Nat, .empty Nat, .empty Nat], 0, 7⟩ ∧
    insert_all (4 + fuel) (⟨[⟨none, some 1, 0⟩, ⟨none, some 2, 0⟩, ⟨none, some 3, 2⟩,
            .empty Nat, .empty Nat, .empty Nat, .empty Nat, .empty Nat], 0, 7⟩ : Hash_Table Nat)
        [([104], some 5), ([112], some 6)] = .undefined ∧
    insert_all (4 + fuel) (⟨List.replicate 8 (.empty Nat), 0, 7⟩ : Hash_Table Nat)
        [([104], some 5), ([112], some 6)] =
      .ok ⟨[.empty Nat, ⟨some [104], some 5, 0⟩, ⟨some [112], some 6, 1⟩,
            .empty Nat, .empty Nat, .empty Nat, .empty Nat, .empty Nat], 2, 7⟩ := by
  rw [insert_all_fuel_add 4 fuel _ _ (by decide), insert_all_fuel_add 4 fuel _ _ (by decide),
    insert_all_fuel_add 4 fuel _ _ (by decide)]
  decide

/-- Claim C20 (probes terminate), on `create(0); reserve((size_t)(-1)); count("a")` and on
`create(0); lookup("a")`. The `reserve` throws and leaves `table_size = 2 ^ 64 - 1` next
to the vector of 2 slots; in that state the probe for `"a"` starts at index 3224, outside
the vector, so `find_element_beyond_tombstones`, `count` and `operator[]` are undefined
behaviour and yield no index, for every fuel. On the table of `create(0)` itself the
probe for the absent key `"a"` ends on the empty slot 0 and `operator[]` then hands its
`nullptr` key to `strcmp`: the lookup is undefined behaviour as well. -/
theorem probe_after_throw_out_of_bounds (fuel : Nat) :
    (create (1 + fuel) 0 : Res Unit (Hash_Table Nat)) = .ok ⟨[.empty Nat, .empty Nat], 0, 1⟩ ∧
    reserve 65 (⟨[.empty Nat, .empty Nat], 0, 1⟩ : Hash_Table Nat) (2 ^ 64 - 1) =
      .throw ⟨[.empty Nat, .empty Nat], 0, 2 ^ 64 - 1⟩ ∧
    hash_element (2 ^ 64 - 1) [97] = 3224 ∧
    (find_element_beyond_tombstones (fuel + 1)
        (⟨[.empty Nat, .empty Nat], 0, 2 ^ 64 - 1⟩ : Hash_Table Nat) [97]
        (hash_element (2 ^ 64 - 1) [97]) : Res Unit Nat) = .undefined ∧
    count (fuel + 1) (⟨[.empty Nat, .empty Nat], 0, 2 ^ 64 - 1⟩ : Hash_Table Nat) [97] =
      .undefined ∧
    operator_index (fuel + 1) (⟨[.empty Nat, .empty Nat], 0, 2 ^ 64 - 1⟩ : Hash_Table Nat)
      [97] = .undefined ∧
    (find_element_beyond_tombstones (fuel + 1)
        (⟨[.empty Nat, .empty Nat], 0, 1⟩ : Hash_Table Nat) [97]
        (hash_element 1 [97]) : Res Unit Nat) = .ok 0 ∧
    operator_index (fuel + 1) (⟨[.empty Nat, .empty Nat], 0, 1⟩ : Hash_Table Nat) [97] =
      .undefined := by
  rw [create_fuel_add 1 fuel 0 (by decide)]
  exact ⟨by decide, by decide, by decide, rfl, rfl, rfl, rfl, rfl⟩

/-- What holds of claim C20: in every table reached from the constructor by calls of
`insert`, `rehash`, `reserve` and `clear` that return, the occupied slots are at most
`num_elements`, some slot of the vector is empty, and for every key the probe of
`find_element_beyond_tombstones` returns an index within `table_size + 1` rounds; so
`count` returns, and `operator[]` ends its probe and then either returns a value or, on
an empty slot, is undefined behaviour. -/
theorem probes_terminate {V : Type} (t : Hash_Table V) (h : Returning t) :
    occupied t.registry_list ≤ t.num_elements ∧
    (∃ (i : Nat) (r : Hash_Table_Registration V),
      t.registry_list[i]? = some r ∧ r.key = none) ∧
    ∀ (str : Key) (fuel : Nat), t.table_size < fuel →
      (∃ index, (find_element_beyond_tombstones fuel t str
          (hash_element t.table_size str) : Res Unit Nat) = .ok index) ∧
      (∃ b, count fuel t str = .ok b) ∧
      ((∃ v, operator_index fuel t str = .ok v) ∨
        operator_index fuel t str = .undefined) := by
  have hs := returning_sound t h
  refine ⟨hs.2.2.2.1, exists_empty_slot t.registry_list (by
    obtain ⟨-, -, hlen, hocc, hn⟩ := hs
    omega), fun str fuel hf => ?_⟩
  have hi : hash_element t.table_size str &&& t.table_size ≤ t.table_size := Nat.and_le_right
  refine ⟨find_loop_ends_sound t hs str _ fuel hi hf, ?_, ?_⟩
  · obtain ⟨out, hout⟩ := @find_loop_ends_sound Unit V t hs str _ fuel hi hf
    obtain ⟨r, hr, -⟩ := find_loop_result _ _ _ _ _ _ hout
    refine ⟨if r.key.isSome then 1 else 0, ?_⟩
    simp only [count, find_element_beyond_tombstones, hout, hr]
  · obtain ⟨out, hout⟩ := @find_loop_ends_sound (List Nat) V t hs str _ fuel hi hf
    obtain ⟨r, hr, hk⟩ := find_loop_result _ _ _ _ _ _ hout
    simp only [operator_index, find_element_beyond_tombstones, hout, hr]
    rcases hk with hk | hk
    · simp only [hk, or_true]
    · simp only [hk, if_true, Res.ok.injEq, exists_eq', true_or]

/-- The table of `create(0); insert("a", 1)` and the probe for the key `"c"`. -/
theorem probes_terminate_witness :
    Returning (⟨[⟨some [97], some 1, 0⟩, .empty Nat], 1, 1⟩ : Hash_Table Nat) ∧
    occupied (⟨[⟨some [97], some 1, 0⟩, .empty Nat], 1, 1⟩ : Hash_Table Nat).registry_list ≤
      (⟨[⟨some [97], some 1, 0⟩, .empty Nat], 1, 1⟩ : Hash_Table Nat).num_elements ∧
    (∃ index, (find_element_beyond_tombstones 2
      (⟨[⟨some [97], some 1, 0⟩, .empty Nat], 1, 1⟩ : Hash_Table Nat) [99]
      (hash_element 1 [99]) : Res Unit Nat) = .ok index) :=
  have hret : Returning (⟨[⟨some [97], some 1, 0⟩, .empty Nat], 1, 1⟩ : Hash_Table Nat) :=
    Returning.insert 1 [97] (some 1) 0 ⟨[.empty Nat, .empty Nat], 0, 1⟩ _
      (Returning.create 1 0 _ (by decide)) (by decide)
  ⟨hret, (probes_terminate _ hret).1,
   ((probes_terminate _ hret).2.2 [99] 2 (by decide)).1⟩

end CppCli
